import Mathlib

/-!
Verification of the vaniBot real-time call audio pipeline.

Shallow embedding of the Python sources under `src/voice/` and the
media-stream endpoint in `src/api/main.py`:

* `src/voice/twilio_handler.py` — µ-law codec, VAD state machine,
  start-event phone normalization;
* `src/voice/orchestrator.py`   — `VoiceOrchestrator.process_audio`
  buffering / confidence gate;
* `src/voice/text_correction.py` — transliteration and phonetic
  correction passes;
* `src/voice/deepgram_client.py` — text language detection.

Numeric conventions: Python ints are embedded as `Nat`/`Int`; the dB
energy values compared by the VAD are embedded as `ℚ` (the comparisons in
the source are order comparisons only); Python `bytes` values are lists of
byte values.  Character case mapping is embedded at ASCII precision.
-/

namespace VaniBot

/-! ### µ-law codec (`src/voice/twilio_handler.py`, lines 29–86) -/

/-- `_MULAW_BIAS` -/
def MULAW_BIAS : Nat := 0x84

/-- `_MULAW_CLIP` -/
def MULAW_CLIP : Int := 32635

/-- One entry of `_build_mulaw_decode_table`: decode a µ-law byte to a
signed 16-bit sample.  `~b & 0xFF` on a byte value equals `0xFF ^^^ b`;
the mask keeps the embedding total on `Nat`. -/
def mulawDecodeSample (b : Nat) : Int :=
  let complement := 0xFF ^^^ (b &&& 0xFF)
  let sign := complement &&& 0x80
  let exponent := (complement >>> 4) &&& 0x07
  let mantissa := complement &&& 0x0F
  let sample : Int := (((mantissa <<< 3) + MULAW_BIAS) <<< exponent : Nat) - (MULAW_BIAS : Int)
  if sign ≠ 0 then -sample else sample

/-- `mulaw_decode`, at the level of decoded samples (one signed 16-bit
sample per input byte). -/
def mulawDecode (bs : List Nat) : List Int :=
  bs.map mulawDecodeSample

/-- Packing one decoded sample as two little-endian bytes, as
`struct.pack("<…h", …)` does; `none` when the sample is outside the
signed 16-bit range (where `struct.pack` raises). -/
def pack16le (s : Int) : Option (List Nat) :=
  if -32768 ≤ s ∧ s ≤ 32767 then
    let u := (s % 65536).toNat
    some [u % 256, u / 256]
  else none

/-- Pack a sample list to one byte string; `none` as soon as one sample is
out of range. -/
def packAll : List Int → Option (List Nat)
  | [] => some []
  | s :: t =>
    match pack16le s, packAll t with
    | some p, some rest => some (p ++ rest)
    | _, _ => none

/-- `mulaw_decode` at byte level: decoded samples packed to a little-endian
byte string; `none` models a `struct.error`. -/
def mulawDecodeBytes (bs : List Nat) : Option (List Nat) :=
  packAll (mulawDecode bs)

/-- The exponent search loop of `pcm16_to_mulaw`
(`for exp in range(7, 0, -1): if sample & (1 << (exp + 3)) … else: 0`). -/
def mulawFindExponent (sample : Nat) : Nat :=
  if sample &&& (1 <<< 10) ≠ 0 then 7
  else if sample &&& (1 <<< 9) ≠ 0 then 6
  else if sample &&& (1 <<< 8) ≠ 0 then 5
  else if sample &&& (1 <<< 7) ≠ 0 then 4
  else if sample &&& (1 <<< 6) ≠ 0 then 3
  else if sample &&& (1 <<< 5) ≠ 0 then 2
  else if sample &&& (1 <<< 4) ≠ 0 then 1
  else 0

/-- Per-sample body of `pcm16_to_mulaw`: sign extraction, clip to
`_MULAW_CLIP`, companding bias, exponent/mantissa quantization and final
complement (`~x & 0xFF = 0xFF ^^^ x` for `x < 256`). -/
def mulawEncodeSample (s : Int) : Nat :=
  let sign : Nat := if s < 0 then 0x80 else 0
  let mag : Int := if s < 0 then -s else s
  let mag : Int := if mag > MULAW_CLIP then MULAW_CLIP else mag
  let biased : Nat := (mag + MULAW_BIAS).toNat
  let exponent := mulawFindExponent biased
  let mantissa := (biased >>> (exponent + 3)) &&& 0x0F
  0xFF ^^^ (sign ||| (exponent <<< 4) ||| mantissa)

/-- `pcm16_to_mulaw` over the unpacked sample values. -/
def pcm16ToMulaw (ss : List Int) : List Nat :=
  ss.map mulawEncodeSample

/-- `mulaw_decode(pcm16_to_mulaw(x))` at sample level. -/
def mulawRoundTrip (ss : List Int) : List Int :=
  mulawDecode (pcm16ToMulaw ss)

/-! ### Voice Activity Detection (`src/voice/twilio_handler.py`, lines 373–467) -/

/-- `np.percentile(xs, 20)` with numpy's default linear interpolation,
over exact rationals. -/
def percentile20 (l : List ℚ) : ℚ :=
  let s := List.insertionSort (· ≤ ·) l
  let n := s.length
  if n = 0 then 0
  else
    let rank : ℚ := (n - 1 : ℕ) / 5
    let k : ℕ := (Int.floor rank).toNat
    let ak := s.getD k 0
    let ak1 := s.getD (k + 1) ak
    ak + (rank - (k : ℚ)) * (ak1 - ak)

/-- `VADState.__init__`: configuration and mutable state, with the
source's default values. -/
@[ext] structure VADState where
  speech_threshold_db : ℚ := -30
  silence_threshold_db : ℚ := -40
  speech_min_ms : ℕ := 100
  silence_trigger_ms : ℕ := 500
  max_speech_ms : ℕ := 10000
  is_speaking : Bool := false
  speech_start_ms : ℕ := 0
  silence_start_ms : ℕ := 0
  total_speech_ms : ℕ := 0
  noise_floor_samples : List ℚ := []
  noise_floor : ℚ := 200
  deriving Repr

/-- A freshly constructed `VADState()`. -/
def VADState.init : VADState := {}

/-- `VADState.update_noise_floor`. -/
def VADState.updateNoiseFloor (st : VADState) (rms : ℚ) : VADState :=
  let samples := st.noise_floor_samples ++ [rms]
  let samples := if 50 < samples.length then samples.tail else samples
  { st with
      noise_floor_samples := samples,
      noise_floor := if 5 ≤ samples.length then percentile20 samples else st.noise_floor }

/-- The trailing `if self.total_speech_ms >= self.max_speech_ms` block of
`process_chunk`, applied to the state produced by the branch above it. -/
def vadCapCheck (st : VADState) (is_speech fin : Bool) : VADState × Bool × Bool :=
  if st.max_speech_ms ≤ st.total_speech_ms then
    ({ st with is_speaking := false, total_speech_ms := 0 }, is_speech, true)
  else (st, is_speech, fin)

/-- `VADState.process_chunk`, over the frame's RMS level in dB and linear
RMS (the source derives both from the chunk bytes; the decision logic uses
them only through order comparisons).  Returns
`(state, is_speech, should_finalize)`.  The source also computes
`is_silence = rms_db < silence_threshold_db` but never reads it: the
silence-accumulation branch is guarded only by `is_speech` being false. -/
def processChunk (st : VADState) (rms_db rms : ℚ) (dur : ℕ) : VADState × Bool × Bool :=
  if st.speech_threshold_db < rms_db then
    let base := if st.is_speaking then st
      else { st with is_speaking := true, speech_start_ms := 0, silence_start_ms := 0 }
    vadCapCheck { base with
        speech_start_ms := base.speech_start_ms + dur,
        total_speech_ms := base.total_speech_ms + dur,
        silence_start_ms := 0 } true false
  else if st.is_speaking then
    let st1 := { st with silence_start_ms := st.silence_start_ms + dur }
    if st1.silence_trigger_ms ≤ st1.silence_start_ms then
      vadCapCheck { st1 with is_speaking := false, total_speech_ms := 0, silence_start_ms := 0 }
        false (decide (st.speech_min_ms ≤ st.total_speech_ms))
    else
      vadCapCheck st1 false false
  else
    vadCapCheck (st.updateNoiseFloor rms) false false

/-- Feed a sequence of frames (given as `(rms_db, rms)` pairs, 20 ms each
as Twilio sends them) through `process_chunk`; returns the final state and
how many calls returned `should_finalize = true`. -/
def runVAD : VADState → List (ℚ × ℚ) → VADState × Nat
  | st, [] => (st, 0)
  | st, f :: fs =>
    let r := processChunk st f.1 f.2 20
    let rest := runVAD r.1 fs
    (rest.1, (if r.2.2 then 1 else 0) + rest.2)

/-! ### Python string primitives

The helpers below embed the Python `str` operations the sources use
(`strip`, `lower`, `split`, membership, `replace`), over `String` /
`List Char` data.  Case mapping is embedded at ASCII precision. -/

/-- A character of Python's default `str.strip()` / `\s` whitespace set. -/
def isPyWs (c : Char) : Bool :=
  c = ' ' || c = '\t' || c = '\n' || c = '\r' || c = Char.ofNat 11 || c = Char.ofNat 12

/-- `str.strip()` on character data. -/
def pyStripList (l : List Char) : List Char :=
  ((l.dropWhile isPyWs).reverse.dropWhile isPyWs).reverse

/-- `str.strip()`. -/
def pyStrip (s : String) : String :=
  String.mk (pyStripList s.data)

/-- `str.lower()` (ASCII case mapping). -/
def pyLower (s : String) : String :=
  String.mk (s.data.map Char.toLower)

/-- Accumulator loop for `str.split()`: `acc` holds the current word's
characters in reverse. -/
def wordsAux : List Char → List Char → List (List Char)
  | [], acc => if acc = [] then [] else [acc.reverse]
  | c :: t, acc =>
    if isPyWs c then
      if acc = [] then wordsAux t [] else acc.reverse :: wordsAux t []
    else wordsAux t (c :: acc)

/-- `str.split()` with no separator: maximal runs of non-whitespace. -/
def words (l : List Char) : List (List Char) :=
  wordsAux l []

/-- `str.split()` at `String` level. -/
def splitWs (s : String) : List String :=
  (words s.data).map String.mk

/-- Substring membership (`pat in s` in Python) on character data. -/
def subOccurs (pat : List Char) : List Char → Bool
  | [] => pat.isEmpty
  | c :: t => pat.isPrefixOf (c :: t) || subOccurs pat t

/-- `pat in s` for strings. -/
def strContains (s pat : String) : Bool :=
  subOccurs pat.data s.data

/-- Loop for `str.replace(pat, rep)` (leftmost, non-overlapping): after a
match the remaining `pat.length - 1` matched characters are consumed via
the `skip` counter. -/
def replaceAux (pat rep : List Char) : List Char → Nat → List Char
  | [], _ => []
  | c :: t, skip =>
    match skip with
    | n + 1 => replaceAux pat rep t n
    | 0 =>
      if pat ≠ [] ∧ pat.isPrefixOf (c :: t) then
        rep ++ replaceAux pat rep t (pat.length - 1)
      else c :: replaceAux pat rep t 0

/-- `str.replace(pat, rep)` on character data. -/
def replaceList (pat rep l : List Char) : List Char :=
  replaceAux pat rep l 0

/-- `str.replace`. -/
def pyReplace (s pat rep : String) : String :=
  String.mk (replaceList pat.data rep.data s.data)

/-- The caller-number normalization of `TwilioHandler.parse_start_event`
(`src/voice/twilio_handler.py`, lines 512–516):
`phone.replace("+91", "").replace("+", "").replace(" ", "").strip()`,
then keep the last 10 characters when longer than 10. -/
def normalizePhone (phone : String) : String :=
  let p := pyStrip (pyReplace (pyReplace (pyReplace phone "+91" "") "+" "") " " "")
  if 10 < p.length then String.mk (p.data.drop (p.length - 10)) else p

/-- A Devanagari code point (`ऀ`–`ॿ`). -/
def isDevanagari (c : Char) : Bool :=
  0x900 ≤ c.toNat && c.toNat ≤ 0x97F

/-- `HinglishTransliterator.contains_devanagari` /
the detector's Devanagari scan. -/
def containsDevanagari (s : String) : Bool :=
  s.data.any isDevanagari

/-! ### Language detection (`src/voice/deepgram_client.py`, lines 475–536) -/

/-- `DeepgramLanguageDetector.HINDI_MARKERS`. -/
def HINDI_MARKERS : List String :=
  ["hai", "hain", "kya", "kahan", "kaise", "kyun", "mera", "meri",
   "aapka", "aapki", "batao", "dikhao", "chahiye", "karo", "karein",
   "nahi", "haan", "theek", "achha", "bahut", "bohot", "abhi",
   "kal", "aaj", "yahan", "wahan", "kaun", "kab", "kitna", "kitni"]

/-- `DeepgramLanguageDetector.ENGLISH_MARKERS`. -/
def ENGLISH_MARKERS : List String :=
  ["the", "is", "are", "was", "were", "have", "has", "can", "could",
   "would", "should", "will", "what", "where", "when", "how", "why",
   "please", "help", "need", "want", "show", "check", "find"]

/-- `DeepgramLanguageDetector.detect_from_text`.  The marker counting uses
the set of distinct lowered words, and the 0.7 / 0.3 ratio comparisons are
taken over exact rationals. -/
def detectFromText (text : String) : String :=
  if text = "" then "hi-en"
  else if containsDevanagari text then "hi"
  else
    let ws := (splitWs (pyLower text)).dedup
    let hindi := (ws.filter (fun w => HINDI_MARKERS.contains w)).length
    let eng := (ws.filter (fun w => ENGLISH_MARKERS.contains w)).length
    let total := hindi + eng
    if total = 0 then "hi-en"
    else if (7 : ℚ) / 10 < (hindi : ℚ) / (total : ℚ) then "hi"
    else if (hindi : ℚ) / (total : ℚ) < 3 / 10 then "en"
    else "hi-en"

/-- `DeepgramLanguageDetector.should_switch_language`. -/
def shouldSwitchLanguage (current detected : String) : Bool :=
  if current = "hi-en" then false
  else if current = "hi" && detected = "en" then true
  else if current = "en" && detected = "hi" then true
  else false

/-! ### Session orchestrator (`src/voice/orchestrator.py`) -/

/-- `TranscriptionResult` (`src/voice/deepgram_client.py`, lines 25–32);
`confidence` is embedded as an exact rational. -/
structure TranscriptionResult where
  text : String
  confidence : ℚ
  is_final : Bool
  language : String
  words : List String := []

/-- One element of a Rasa webhook response: its optional `text` and the
optional `custom.action` field. -/
structure RasaMsg where
  text : Option String := none
  custom_action : Option String := none

/-- `VoiceOrchestrator._should_handoff`. -/
def shouldHandoff (responses : List RasaMsg) : Bool :=
  responses.any fun rsp =>
    rsp.custom_action = some "handoff"
      || strContains (pyLower (rsp.text.getD "")) "agent se connect"
      || strContains (pyLower (rsp.text.getD "")) "transfer"

/-- `VoiceOrchestrator._extract_response_text`: first response with
non-blank text, returned unstripped. -/
def extractResponseText : List RasaMsg → String
  | [] => ""
  | rsp :: rest =>
    match rsp.text with
    | some t => if pyStrip t ≠ "" then t else extractResponseText rest
    | none => extractResponseText rest

/-- `VoiceSession` (`src/voice/orchestrator.py`, lines 42–60).  The two
wall-clock fields (`started_at`, `last_activity`) have no effect on any
control flow and are not embedded; `audio_buffer` holds PCM byte values. -/
structure VoiceSession where
  session_id : String
  phone_number : String
  language : String := "hi-en"
  driver_id : Option String := none
  driver_name : Option String := none
  turn_count : ℕ := 0
  sentiment_history : List ℚ := []
  confidence_history : List ℚ := []
  is_active : Bool := true
  stream_sid : Option String := none
  call_sid : Option String := none
  audio_buffer : List Int := []
  buffer_duration_ms : ℕ := 0

/-- `MIN_BUFFER_DURATION_MS` (the source comment says ~2000 ms but the
constant is 3000). -/
def MIN_BUFFER_DURATION_MS : ℕ := 3000

/-- `CHUNK_DURATION_MS`: every inbound chunk is accounted 20 ms. -/
def CHUNK_DURATION_MS : ℕ := 20

/-- `MIN_CONFIDENCE_THRESHOLD = 0.4`, embedded as the exact rational. -/
def MIN_CONFIDENCE_THRESHOLD : ℚ := 4 / 10

/-- Result of one `process_audio` call: the updated session, the returned
reply audio (`None` embedded as `none`), how many transcribe round trips
were started (0 or 1), and the transcript text sent to Rasa, if any. -/
structure StepResult where
  session : VoiceSession
  reply : Option (List Int)
  transcribe_calls : ℕ
  rasa_message : Option String

/-- The tail of `process_audio` after a flush: empty-transcript check,
confidence gate, language adaptation, Rasa round trip, handoff check and
synthesis.  `s2` is the session with the buffer already grabbed and reset
and `tres` the transcription outcome (counted as the one round trip). -/
def handleTranscript (rasa : String → List RasaMsg)
    (tts : String → String → List Int)
    (s2 : VoiceSession) (tres : Option TranscriptionResult) : StepResult :=
  match tres with
  | none => ⟨s2, none, 1, none⟩
  | some t =>
    if pyStrip t.text = "" then ⟨s2, none, 1, none⟩
    else if t.confidence < MIN_CONFIDENCE_THRESHOLD then ⟨s2, none, 1, none⟩
    else
      let detected := detectFromText t.text
      let s3 := if shouldSwitchLanguage s2.language detected
                then { s2 with language := detected } else s2
      let resp := rasa t.text
      let s4 := { s3 with turn_count := s3.turn_count + 1 }
      if shouldHandoff resp then ⟨s4, none, 1, some t.text⟩
      else
        let rtext := extractResponseText resp
        if rtext ≠ "" then ⟨s4, some (tts rtext s4.language), 1, some t.text⟩
        else ⟨s4, none, 1, some t.text⟩

/-- `VoiceOrchestrator.process_audio` (lines 134–221), with the external
collaborators (Google STT, resampler, Rasa, TTS) passed as function-valued
parameters: `transcribe` models `_transcribe_audio` (already `None` on
error or empty result), `resample` models `resample_8k_to_16k`, `rasa`
models `_send_to_rasa`'s response list, `tts` models
`synthesize_for_twilio` applied to a text and a language. -/
def processAudio (transcribe : List Int → Option TranscriptionResult)
    (resample : List Int → List Int) (rasa : String → List RasaMsg)
    (tts : String → String → List Int)
    (s : VoiceSession) (chunk : List Int) : StepResult :=
  if s.is_active = false then ⟨s, none, 0, none⟩
  else
    let s1 := { s with audio_buffer := s.audio_buffer ++ chunk,
                       buffer_duration_ms := s.buffer_duration_ms + CHUNK_DURATION_MS }
    if s1.buffer_duration_ms < MIN_BUFFER_DURATION_MS then ⟨s1, none, 0, none⟩
    else
      let buffered := s1.audio_buffer
      let s2 := { s1 with audio_buffer := [], buffer_duration_ms := 0 }
      let audio16 := resample buffered
      handleTranscript rasa tts s2 (transcribe audio16)

/-- Feed a sequence of inbound chunks through `process_audio`, returning
the final session and the total number of transcribe round trips. -/
def runAudio (transcribe : List Int → Option TranscriptionResult)
    (resample : List Int → List Int) (rasa : String → List RasaMsg)
    (tts : String → String → List Int) :
    VoiceSession → List (List Int) → VoiceSession × ℕ
  | s, [] => (s, 0)
  | s, c :: cs =>
    let r := processAudio transcribe resample rasa tts s c
    let rest := runAudio transcribe resample rasa tts r.session cs
    (rest.1, r.transcribe_calls + rest.2)

/-! ### Transcript normalizer (`src/voice/text_correction.py`) -/

/-- `PHONETIC_ENGLISH_CORRECTIONS` (lines 27–190), in source order; as in
a Python dict literal, a later duplicate key would win (see
`lookupLast`). -/
def PHONETIC_ENGLISH_CORRECTIONS : List (String × String) :=
  [("svata", "swap"), ("svaap", "swap"), ("svap", "swap"), ("svaad", "swap"),
   ("swaad", "swap"), ("svaada", "swap"), ("swaada", "swap"), ("swaap", "swap"),
   ("histree", "history"), ("histaree", "history"), ("histri", "history"),
   ("hishtree", "history"), ("hishtaree", "history"),
   ("deeesake", "dsk"), ("deeeske", "dsk"), ("deesk", "dsk"), ("deesake", "dsk"),
   ("dsk", "dsk"), ("dee es ke", "dsk"),
   ("steshana", "station"), ("steshan", "station"), ("steshna", "station"),
   ("stesan", "station"), ("stesana", "station"),
   ("neresta", "nearest"), ("neerest", "nearest"), ("niarest", "nearest"),
   ("niyaresta", "nearest"), ("niyarest", "nearest"),
   ("baitaree", "battery"), ("baitree", "battery"), ("baitri", "battery"),
   ("betaree", "battery"), ("betree", "battery"), ("batree", "battery"),
   ("baataree", "battery"),
   ("sabsakripshana", "subscription"), ("sabskripshan", "subscription"),
   ("subscription", "subscription"), ("sabsakripsan", "subscription"),
   ("lokeshana", "location"), ("lokeshan", "location"),
   ("veyara", "where"), ("vheyara", "where"), ("vhaata", "what"), ("whata", "what"),
   ("isa", "is"), ("da", "the"), ("phroma", "from"), ("frama", "from"),
   ("araaunda", "around"), ("araunda", "around"), ("mee", "me"),
   ("plaina", "plan"), ("plaana", "plan"), ("plaan", "plan"),
   ("invoisa", "invoice"), ("invois", "invoice"), ("invoica", "invoice"),
   ("cheka", "check"), ("chek", "check"),
   ("riplesamenta", "replacement"),
   ("dikhaao", "dikhao"), ("dikha", "dikhao"), ("sho", "show"), ("shoa", "show"),
   ("bataa", "batao"), ("bataao", "batao"), ("batana", "batao"),
   ("bataaen", "batao"), ("bataen", "batao"), ("bataiye", "batao"),
   ("bataiyee", "batao"),
   ("jaananaa", "jaanna"), ("jaanana", "jaanna"), ("jaanaa", "jaana"),
   ("dikhaaen", "dikhao"), ("dikhaen", "dikhao"), ("dikhaiye", "dikhao"),
   ("sakate", "sakte"), ("sakata", "sakta"), ("sakatee", "sakti"),
   ("karanaa", "karna"), ("karana", "karna"),
   ("dekhana", "dekhna"), ("dekhanaa", "dekhna"),
   ("men", "mein"), ("aapa", "aap"), ("meree", "meri"), ("meera", "mera"),
   ("meraa", "mera"), ("kyaa", "kya"), ("hain?", "hai?"),
   ("leeva", "leave"), ("leev", "leave"), ("chhuttee", "chutti"),
   ("chuttee", "chutti"),
   ("availebilitee", "availability"), ("availabiliti", "availability"),
   ("eveilebal", "available"), ("eveilebala", "available"),
   ("sarvisa", "service"), ("sarvis", "service"),
   ("nambara", "number"), ("nambar", "number"),
   ("stetasa", "status"), ("stetas", "status"),
   ("rinyu", "renew"), ("rinyua", "renew"), ("rinyoo", "renew"),
   ("praisa", "price"), ("prais", "price"),
   ("praisinga", "pricing"), ("praising", "pricing"),
   ("manthalee", "monthly"), ("manthlee", "monthly"),
   ("weekalee", "weekly"), ("weeklee", "weekly"),
   ("deilee", "daily"), ("dailee", "daily")]

/-- Python-dict lookup over an association-list literal: the *last*
binding of a key wins. -/
def lookupLast {α β : Type} [DecidableEq α] : List (α × β) → α → Option β
  | [], _ => none
  | kv :: rest, k =>
    match lookupLast rest k with
    | some v => some v
    | none => if kv.1 = k then some kv.2 else none

/-- `DEVANAGARI_TO_ROMAN` (lines 193–219).  As in the source, the keys
are Python strings: the nukta entries are two code points long and can
therefore never match the single-character lookups the loop performs. -/
def DEVANAGARI_TO_ROMAN : List (String × String) :=
  [("अ", "a"), ("आ", "aa"), ("इ", "i"), ("ई", "ee"), ("उ", "u"), ("ऊ",
   "oo"), ("ऋ", "ri"), ("ए", "e"), ("ऐ", "ai"), ("ओ", "o"), ("औ", "au"),
   ("ा", "aa"), ("ि", "i"), ("ी", "ee"), ("ु", "u"), ("ू", "oo"), ("ृ",
   "ri"), ("े", "e"), ("ै", "ai"), ("ो", "o"), ("ौ", "au"), ("क", "k"),
   ("ख", "kh"), ("ग", "g"), ("घ", "gh"), ("ङ", "n"), ("च", "ch"), ("छ",
   "chh"), ("ज", "j"), ("झ", "jh"), ("ञ", "n"), ("ट", "t"), ("ठ", "th"),
   ("ड", "d"), ("ढ", "dh"), ("ण", "n"), ("त", "t"), ("थ", "th"), ("द", "d"),
   ("ध", "dh"), ("न", "n"), ("प", "p"), ("फ", "ph"), ("ब", "b"), ("भ",
   "bh"), ("म", "m"), ("य", "y"), ("र", "r"), ("ल", "l"), ("व", "v"), ("श",
   "sh"), ("ष", "sh"), ("स", "s"), ("ह", "h"), ("क़", "q"), ("ख़", "kh"),
   ("ग़", "g"), ("ज़", "z"), ("ड़", "d"), ("ढ़", "dh"), ("फ़", "f"), ("य़",
   "y"), ("ऱ", "r"), ("ऴ", "l"), ("ं", "n"), ("ः", "h"), ("ँ", "n"), ("्",
   ""), ("।", "."), ("॥", "."), ("०", "0"), ("१", "1"), ("२", "2"), ("३",
   "3"), ("४", "4"), ("५", "5"), ("६", "6"), ("७", "7"), ("८", "8"), ("९",
   "9")]

/-- The matra/virama character class of line 286
(`'ािीुूृेैोौंःँ्'`). -/
def MATRAS_A : List Char := "ािीुूृेैोौंःँ्".data

/-- The character class of line 295 (`'ािीुूृेैोौ्ंःँ'`). -/
def MATRAS_B : List Char := "ािीुूृेैोौ्ंःँ".data

/-- The matra/virama class of line 298 (`'ािीुूृेैोौ्'`). -/
def MATRAS_C : List Char := "ािीुूृेैोौ्".data

/-- The loop body of `HinglishTransliterator._local_transliterate`
(lines 266–312): map each Devanagari character, adding the inherent 'a'
after a consonant (U+0915–U+0939) when the next character does not
suppress it. -/
def localTransGo : List Char → List Char
  | [] => []
  | c :: rest =>
    match lookupLast DEVANAGARI_TO_ROMAN (String.mk [c]) with
    | none => c :: localTransGo rest
    | some roman =>
      if roman ≠ "" ∧ c ∉ MATRAS_A ∧ 0x915 ≤ c.toNat ∧ c.toNat ≤ 0x939 then
        match rest with
        | [] => roman.data ++ 'a' :: localTransGo rest
        | n :: _ =>
          if n ∉ MATRAS_B ∧ (lookupLast DEVANAGARI_TO_ROMAN (String.mk [n])).isNone then
            roman.data ++ 'a' :: localTransGo rest
          else if n ∉ MATRAS_C then
            roman.data ++ 'a' :: localTransGo rest
          else roman.data ++ localTransGo rest
      else roman.data ++ localTransGo rest

/-- `HinglishTransliterator._local_transliterate`. -/
def localTransliterate (text : String) : String :=
  String.mk (localTransGo text.data)

/-- Loop for `re.sub(r'\s+', ' ', text)`: collapse each whitespace run to
one space; the flag records being inside a run. -/
def collapseAux : List Char → Bool → List Char
  | [], _ => []
  | c :: t, inRun =>
    if isPyWs c then
      if inRun then collapseAux t true else ' ' :: collapseAux t true
    else c :: collapseAux t false

/-- `HinglishTransliterator._clean_transliteration` (lines 314–320):
collapse whitespace runs, then lower-case, then strip. -/
def cleanTransliteration (s : String) : String :=
  pyStrip (pyLower (String.mk (collapseAux s.data false)))

/-- The punctuation set of `word.rstrip('.,?!।')`. -/
def isPunct (c : Char) : Bool :=
  c = '.' || c = ',' || c = '?' || c = '!' || c = '।'

/-- `rstrip('.,?!।')` on character data. -/
def rdropPunct (l : List Char) : List Char :=
  (l.reverse.dropWhile isPunct).reverse

/-- `clean_word = word.rstrip('.,?!।')`. -/
def stripPunct (w : String) : String :=
  String.mk (rdropPunct w.data)

/-- The replacement step of one word of `_apply_phonetic_corrections`
(lines 332–342), abstracted over the table lookup's result: on a hit the
value replaces the punctuation-stripped word, with the trailing
punctuation re-attached. -/
def correctWordWith (w : String) : Option String → String
  | some v => v ++ String.mk (w.data.drop (stripPunct w).data.length)
  | none => w

/-- One word of `_apply_phonetic_corrections` (lines 329–343): look the
punctuation-stripped word up in the correction table. -/
def correctWord (w : String) : String :=
  correctWordWith w (lookupLast PHONETIC_ENGLISH_CORRECTIONS (stripPunct w))

/-- `' '.join(...)`. -/
def joinSpace : List String → String
  | [] => ""
  | [w] => w
  | w :: ws => w ++ " " ++ joinSpace ws

/-- `HinglishTransliterator._apply_phonetic_corrections` (lines 322–344). -/
def applyPhoneticCorrections (s : String) : String :=
  joinSpace ((splitWs s).map correctWord)

/-- `HinglishTransliterator.transliterate` (lines 346–381): blank and
non-Devanagari input pass through; otherwise local transliteration, clean
up, then phonetic corrections.  (The Google-API block in the source is a
`pass` no-op.) -/
def transliterate (text : String) : String :=
  if pyStrip text = "" then text
  else if ¬ containsDevanagari text then text
  else applyPhoneticCorrections (cleanTransliteration (localTransliterate text))

/-- An ASCII upper-case letter. -/
def asciiUpper (c : Char) : Bool :=
  decide (65 ≤ c.toNat ∧ c.toNat ≤ 90)

/-- No run of two whitespace characters. -/
def noWsRun : List Char → Bool
  | a :: b :: t => (!(isPyWs a && isPyWs b)) && noWsRun (b :: t)
  | _ => true

/-- Whitespace-normalized: no leading, trailing or doubled whitespace. -/
def wsNormalized (l : List Char) : Bool :=
  (match l.head? with | none => true | some c => !isPyWs c) &&
  (match l.getLast? with | none => true | some c => !isPyWs c) &&
  noWsRun l

/-- The source's default VAD configuration. -/
def cfgDefault (st : VADState) : Prop :=
  st.speech_threshold_db = -30 ∧ st.silence_threshold_db = -40 ∧
  st.speech_min_ms = 100 ∧ st.silence_trigger_ms = 500 ∧ st.max_speech_ms = 10000

end VaniBot

namespace VaniBot

/-- **C6** — The spec claims `decodeLogPCM(encodeLogPCM(x))` differs from
`x` per sample by at most the µ-law quantization tolerance.  The code
violates this: the encoder's exponent search tests bit `exp + 3` instead
of bit `exp + 7`, so even the zero sample round-trips to 2108 — an error
far beyond the 8-unit quantization step of the lowest µ-law segment. -/
theorem mulaw_round_trip_zero_bug :
    mulawRoundTrip [0] = [2108] ∧ ¬ (2108 - (0 : Int) ≤ 8) := by
  constructor
  · decide
  · decide

/-- `struct.pack` succeeds on every in-range sample, yielding two bytes. -/
theorem pack16le_of_range (s : Int) (h1 : -32768 ≤ s) (h2 : s ≤ 32767) :
    ∃ p, pack16le s = some p ∧ p.length = 2 := by
  refine ⟨[(s % 65536).toNat % 256, (s % 65536).toNat / 256], ?_, rfl⟩
  unfold pack16le
  rw [if_pos ⟨h1, h2⟩]

/-- Packing a list of in-range samples succeeds and doubles the length. -/
theorem packAll_of_range (l : List Int)
    (h : ∀ s ∈ l, -32768 ≤ s ∧ s ≤ 32767) :
    ∃ out, packAll l = some out ∧ out.length = 2 * l.length := by
  induction l with
  | nil => exact ⟨[], rfl, rfl⟩
  | cons s t ih =>
    obtain ⟨hs1, hs2⟩ := h s (List.mem_cons_self s t)
    obtain ⟨p, hp, hp2⟩ := pack16le_of_range s hs1 hs2
    obtain ⟨out, hout, hlen⟩ := ih fun x hx => h x (List.mem_cons_of_mem _ hx)
    refine ⟨p ++ out, ?_, ?_⟩
    · unfold packAll
      rw [hp, hout]
    · simp only [List.length_append, hp2, hlen, List.length_cons]
      omega

set_option maxRecDepth 4096 in
/-- Every µ-law decode table entry lies in `[-32124, 32124]`. -/
theorem mulawDecodeSample_range :
    ∀ b < 256, -32124 ≤ mulawDecodeSample b ∧ mulawDecodeSample b ≤ 32124 := by
  decide

/-- **C10** — `mulaw_decode` on any byte string: total (never raises),
one sample per byte and `2·len` output bytes, every decoded sample within
`[-32124, 32124]`, strictly inside the signed 16-bit range. -/
theorem mulaw_decode_safe (bs : List Nat) (hb : ∀ b ∈ bs, b < 256) :
    (mulawDecode bs).length = bs.length ∧
    (∀ s ∈ mulawDecode bs, -32124 ≤ s ∧ s ≤ 32124) ∧
    ∃ out, mulawDecodeBytes bs = some out ∧ out.length = 2 * bs.length := by
  have hmem : ∀ s ∈ mulawDecode bs, -32124 ≤ s ∧ s ≤ 32124 := by
    intro s hs
    rcases List.mem_map.mp hs with ⟨b, hbmem, rfl⟩
    exact mulawDecodeSample_range b (hb b hbmem)
  refine ⟨List.length_map _ _, hmem, ?_⟩
  obtain ⟨out, hout, hlen⟩ := packAll_of_range (mulawDecode bs) fun s hs =>
    ⟨by linarith [(hmem s hs).1], by linarith [(hmem s hs).2]⟩
  refine ⟨out, ?_, ?_⟩
  · unfold mulawDecodeBytes
    exact hout
  · rw [hlen]
    unfold mulawDecode
    rw [List.length_map]

/-- Witness for C10 at a concrete byte string. -/
theorem mulaw_decode_safe_witness :
    (mulawDecode [0x00, 0x7F, 0xFF, 0x55]).length = 4 ∧
    (∀ s ∈ mulawDecode [0x00, 0x7F, 0xFF, 0x55], -32124 ≤ s ∧ s ≤ 32124) ∧
    ∃ out, mulawDecodeBytes [0x00, 0x7F, 0xFF, 0x55] = some out ∧ out.length = 2 * 4 := by
  have h := mulaw_decode_safe [0x00, 0x7F, 0xFF, 0x55] (by decide)
  exact ⟨h.1, h.2.1, h.2.2⟩

/-! ### VAD lemmas -/

/-- `update_noise_floor` touches only the noise-floor fields. -/
theorem updateNoiseFloor_fields (st : VADState) (rms : ℚ) :
    (st.updateNoiseFloor rms).speech_threshold_db = st.speech_threshold_db ∧
    (st.updateNoiseFloor rms).silence_threshold_db = st.silence_threshold_db ∧
    (st.updateNoiseFloor rms).speech_min_ms = st.speech_min_ms ∧
    (st.updateNoiseFloor rms).silence_trigger_ms = st.silence_trigger_ms ∧
    (st.updateNoiseFloor rms).max_speech_ms = st.max_speech_ms ∧
    (st.updateNoiseFloor rms).is_speaking = st.is_speaking ∧
    (st.updateNoiseFloor rms).speech_start_ms = st.speech_start_ms ∧
    (st.updateNoiseFloor rms).silence_start_ms = st.silence_start_ms ∧
    (st.updateNoiseFloor rms).total_speech_ms = st.total_speech_ms :=
  ⟨rfl, rfl, rfl, rfl, rfl, rfl, rfl, rfl, rfl⟩

/-- A speech frame while already speaking, below the cap: counters advance,
no finalize. -/
theorem processChunk_speech_cont (st : VADState) (e r : ℚ) (d : ℕ)
    (h1 : st.is_speaking = true) (h2 : st.speech_threshold_db < e)
    (h3 : st.total_speech_ms + d < st.max_speech_ms) :
    processChunk st e r d =
      ({ st with speech_start_ms := st.speech_start_ms + d,
                 total_speech_ms := st.total_speech_ms + d,
                 silence_start_ms := 0 }, true, false) := by
  have hc : ¬ (st.max_speech_ms ≤ st.total_speech_ms + d) := by omega
  simp [processChunk, vadCapCheck, h1, h2, hc]

/-- A speech frame from the idle state, below the cap: speaking starts. -/
theorem processChunk_speech_first (st : VADState) (e r : ℚ) (d : ℕ)
    (h1 : st.is_speaking = false) (h2 : st.speech_threshold_db < e)
    (h3 : st.total_speech_ms + d < st.max_speech_ms) :
    processChunk st e r d =
      ({ st with is_speaking := true, speech_start_ms := d,
                 total_speech_ms := st.total_speech_ms + d,
                 silence_start_ms := 0 }, true, false) := by
  have hc : ¬ (st.max_speech_ms ≤ st.total_speech_ms + d) := by omega
  simp [processChunk, vadCapCheck, h1, h2, hc]

/-- A speech frame that takes accumulated speech past the cap: forced
finalize. -/
theorem processChunk_speech_cap (st : VADState) (e r : ℚ) (d : ℕ)
    (h1 : st.is_speaking = true) (h2 : st.speech_threshold_db < e)
    (h3 : st.max_speech_ms ≤ st.total_speech_ms + d) :
    processChunk st e r d =
      ({ st with is_speaking := false, speech_start_ms := st.speech_start_ms + d,
                 total_speech_ms := 0, silence_start_ms := 0 }, true, true) := by
  simp [processChunk, vadCapCheck, h1, h2, h3]

/-- A non-speech frame while speaking, trailing silence still below the
trigger: the silence counter advances, no finalize. -/
theorem processChunk_silence_acc (st : VADState) (e r : ℚ) (d : ℕ)
    (h1 : st.is_speaking = true) (h2 : ¬ st.speech_threshold_db < e)
    (h3 : st.silence_start_ms + d < st.silence_trigger_ms)
    (h4 : st.total_speech_ms < st.max_speech_ms) :
    processChunk st e r d =
      ({ st with silence_start_ms := st.silence_start_ms + d }, false, false) := by
  have hc1 : ¬ (st.silence_trigger_ms ≤ st.silence_start_ms + d) := by omega
  have hc2 : ¬ (st.max_speech_ms ≤ st.total_speech_ms) := by omega
  simp [processChunk, vadCapCheck, h1, h2, hc1, hc2]

/-- A non-speech frame completing the trailing-silence trigger with enough
accumulated speech: finalize and return to idle. -/
theorem processChunk_finalize (st : VADState) (e r : ℚ) (d : ℕ)
    (h1 : st.is_speaking = true) (h2 : ¬ st.speech_threshold_db < e)
    (h3 : st.silence_trigger_ms ≤ st.silence_start_ms + d)
    (h4 : st.speech_min_ms ≤ st.total_speech_ms)
    (h5 : 0 < st.max_speech_ms) :
    processChunk st e r d =
      ({ st with is_speaking := false, total_speech_ms := 0,
                 silence_start_ms := 0 }, false, true) := by
  have hc : ¬ (st.max_speech_ms ≤ 0) := by omega
  simp [processChunk, vadCapCheck, h1, h2, h3, h4, hc]

/-- A non-speech frame in the idle state only updates the noise floor. -/
theorem processChunk_idle (st : VADState) (e r : ℚ) (d : ℕ)
    (h1 : st.is_speaking = false) (h2 : ¬ st.speech_threshold_db < e)
    (h3 : st.total_speech_ms < st.max_speech_ms) :
    processChunk st e r d = (st.updateNoiseFloor r, false, false) := by
  have hf := updateNoiseFloor_fields st r
  have hc : ¬ ((st.updateNoiseFloor r).max_speech_ms ≤
      (st.updateNoiseFloor r).total_speech_ms) := by
    rw [hf.2.2.2.2.1, hf.2.2.2.2.2.2.2.2]
    omega
  simp [processChunk, vadCapCheck, h1, h2, hc]

/-- One step of `runVAD`. -/
theorem runVAD_cons (st : VADState) (f : ℚ × ℚ) (fs : List (ℚ × ℚ)) :
    runVAD st (f :: fs) =
      ((runVAD (processChunk st f.1 f.2 20).1 fs).1,
       (if (processChunk st f.1 f.2 20).2.2 then 1 else 0) +
         (runVAD (processChunk st f.1 f.2 20).1 fs).2) := rfl

/-- Splitting a `runVAD` trace. -/
theorem runVAD_append (a b : List (ℚ × ℚ)) (st : VADState) :
    runVAD st (a ++ b) =
      ((runVAD (runVAD st a).1 b).1, (runVAD st a).2 + (runVAD (runVAD st a).1 b).2) := by
  induction a generalizing st with
  | nil => simp [runVAD]
  | cons f fs ih => simp [runVAD_cons, ih, Nat.add_assoc]

/-- A run of speech frames below the cap: no finalize, speech time grows. -/
theorem runVAD_speech_run (e r : ℚ) (k : ℕ) :
    ∀ st : VADState, cfgDefault st → st.is_speaking = true → (-30 : ℚ) < e →
    st.silence_start_ms = 0 → st.total_speech_ms + k * 20 < 10000 →
    (runVAD st (List.replicate k (e, r))).2 = 0 ∧
    (runVAD st (List.replicate k (e, r))).1.is_speaking = true ∧
    (runVAD st (List.replicate k (e, r))).1.total_speech_ms = st.total_speech_ms + k * 20 ∧
    (runVAD st (List.replicate k (e, r))).1.silence_start_ms = 0 ∧
    cfgDefault (runVAD st (List.replicate k (e, r))).1 := by
  induction k with
  | zero =>
    intro st hc h1 h2 hs0 h3
    simp [runVAD, hc, h1, hs0]
  | succ k ih =>
    intro st hc h1 h2 hs0 h3
    obtain ⟨hq1, hq2, hq3, hq4, hq5⟩ := hc
    have hstep := processChunk_speech_cont st e r 20 h1 (hq1 ▸ h2)
      (show st.total_speech_ms + 20 < st.max_speech_ms by omega)
    have hrest := ih { st with speech_start_ms := st.speech_start_ms + 20,
                               total_speech_ms := st.total_speech_ms + 20,
                               silence_start_ms := 0 }
      ⟨hq1, hq2, hq3, hq4, hq5⟩ h1 h2 rfl
      (show st.total_speech_ms + 20 + k * 20 < 10000 by omega)
    rw [List.replicate_succ, runVAD_cons, hstep]
    simp only [Bool.false_eq_true, if_false, Nat.zero_add]
    refine ⟨hrest.1, hrest.2.1, ?_, hrest.2.2.2.1, hrest.2.2.2.2⟩
    rw [hrest.2.2.1]
    show st.total_speech_ms + 20 + k * 20 = st.total_speech_ms + (k + 1) * 20
    omega

/-- A run of non-speech frames while speaking, all before the silence
trigger fires: no finalize, silence time grows. -/
theorem runVAD_silence_run (e r : ℚ) (j : ℕ) :
    ∀ st : VADState, cfgDefault st → st.is_speaking = true → ¬ ((-30 : ℚ) < e) →
    st.total_speech_ms < 10000 → st.silence_start_ms + j * 20 < 500 →
    (runVAD st (List.replicate j (e, r))).2 = 0 ∧
    (runVAD st (List.replicate j (e, r))).1.is_speaking = true ∧
    (runVAD st (List.replicate j (e, r))).1.total_speech_ms = st.total_speech_ms ∧
    (runVAD st (List.replicate j (e, r))).1.silence_start_ms = st.silence_start_ms + j * 20 ∧
    cfgDefault (runVAD st (List.replicate j (e, r))).1 := by
  induction j with
  | zero =>
    intro st hc h1 h2 h3 h4
    simp [runVAD, hc, h1]
  | succ j ih =>
    intro st hc h1 h2 h3 h4
    obtain ⟨hq1, hq2, hq3, hq4, hq5⟩ := hc
    have hstep := processChunk_silence_acc st e r 20 h1 (hq1 ▸ h2)
      (show st.silence_start_ms + 20 < st.silence_trigger_ms by omega)
      (show st.total_speech_ms < st.max_speech_ms by omega)
    have hrest := ih { st with silence_start_ms := st.silence_start_ms + 20 }
      ⟨hq1, hq2, hq3, hq4, hq5⟩ h1 h2 h3
      (show st.silence_start_ms + 20 + j * 20 < 500 by omega)
    rw [List.replicate_succ, runVAD_cons, hstep]
    simp only [Bool.false_eq_true, if_false, Nat.zero_add]
    refine ⟨hrest.1, hrest.2.1, hrest.2.2.1, ?_, hrest.2.2.2.2⟩
    rw [hrest.2.2.2.1]
    show st.silence_start_ms + 20 + j * 20 = st.silence_start_ms + (j + 1) * 20
    omega

/-- A run of non-speech frames in the idle state: nothing finalizes. -/
theorem runVAD_idle_run (e r : ℚ) (j : ℕ) :
    ∀ st : VADState, cfgDefault st → st.is_speaking = false → ¬ ((-30 : ℚ) < e) →
    st.total_speech_ms < 10000 →
    (runVAD st (List.replicate j (e, r))).2 = 0 := by
  induction j with
  | zero => intro st hc h1 h2 h3; simp [runVAD]
  | succ j ih =>
    intro st hc h1 h2 h3
    obtain ⟨hq1, hq2, hq3, hq4, hq5⟩ := hc
    have hstep := processChunk_idle st e r 20 h1 (hq1 ▸ h2)
      (show st.total_speech_ms < st.max_speech_ms by omega)
    have hf := updateNoiseFloor_fields st r
    have hrest := ih (st.updateNoiseFloor r)
      ⟨hf.1.trans hq1, hf.2.1.trans hq2, hf.2.2.1.trans hq3, hf.2.2.2.1.trans hq4,
       hf.2.2.2.2.1.trans hq5⟩
      (hf.2.2.2.2.2.1.trans h1) h2 (by rw [hf.2.2.2.2.2.2.2.2]; omega)
    rw [List.replicate_succ, runVAD_cons, hstep]
    simp only [Bool.false_eq_true, if_false, Nat.zero_add]
    exact hrest

/-- **C3** — From a fresh VAD state, `k` frames above the onset threshold
(duration over the 100 ms minimum, under the 10 s cap) followed by `m`
frames below the silence threshold (duration over the 500 ms trigger)
produce `should_finalize = true` on exactly one `process_chunk` call. -/
theorem vad_exactly_one_finalize (ehi elo rh rl : ℚ) (k m : ℕ)
    (hhi : (-30 : ℚ) < ehi) (hlo : elo < -40)
    (hk1 : 100 < k * 20) (hk2 : k * 20 < 10000) (hm : 500 < m * 20) :
    (runVAD VADState.init (List.replicate k (ehi, rh) ++ List.replicate m (elo, rl))).2 = 1 := by
  have hlo30 : ¬ ((-30 : ℚ) < elo) := by intro h; linarith
  -- speech phase: first frame starts speaking, the rest accumulate
  have hfirst : processChunk VADState.init ehi rh 20 =
      ((⟨-30, -40, 100, 500, 10000, true, 20, 0, 20, [], 200⟩ : VADState), true, false) :=
    processChunk_speech_first VADState.init ehi rh 20 rfl hhi
      (show (VADState.init).total_speech_ms + 20 < (VADState.init).max_speech_ms by
        norm_num [VADState.init])
  have hsp := runVAD_speech_run ehi rh (k - 1)
    (⟨-30, -40, 100, 500, 10000, true, 20, 0, 20, [], 200⟩ : VADState)
    ⟨rfl, rfl, rfl, rfl, rfl⟩ rfl hhi rfl
    (show 20 + (k - 1) * 20 < 10000 by omega)
  have hkrep : List.replicate k (ehi, rh) = (ehi, rh) :: List.replicate (k - 1) (ehi, rh) := by
    rw [← List.replicate_succ]
    congr 1
    omega
  set stS := (runVAD (⟨-30, -40, 100, 500, 10000, true, 20, 0, 20, [], 200⟩ : VADState)
      (List.replicate (k - 1) (ehi, rh))).1 with hstS
  clear_value stS
  have hS_total : stS.total_speech_ms = 20 + (k - 1) * 20 := hsp.2.2.1
  have hS_total10 : stS.total_speech_ms < 10000 := by omega
  have hS_min : stS.speech_min_ms ≤ stS.total_speech_ms := by
    rw [hsp.2.2.2.2.2.2.1]
    omega
  -- silence phase: 24 accumulating frames, one finalize frame, the rest idle
  have hmsplit : List.replicate m (elo, rl) =
      List.replicate 24 (elo, rl) ++ (elo, rl) :: List.replicate (m - 25) (elo, rl) := by
    rw [← List.replicate_succ, ← List.replicate_add]
    congr 1
    omega
  have hsil := runVAD_silence_run elo rl 24 stS hsp.2.2.2.2 hsp.2.1 hlo30 hS_total10
    (by rw [hsp.2.2.2.1]; omega)
  set stT := (runVAD stS (List.replicate 24 (elo, rl))).1 with hstT
  clear_value stT
  obtain ⟨hT1, hT2, hT3, hT4, hT5⟩ := hsil
  have hfin := processChunk_finalize stT elo rl 20 hT2 (hT5.1.symm ▸ hlo30)
    (by rw [hT5.2.2.2.1, hT4, hsp.2.2.2.1])
    (by rw [hT5.2.2.1, hT3, hS_total]; omega)
    (by rw [hT5.2.2.2.2]; omega)
  have hidle := runVAD_idle_run elo rl (m - 25)
    { stT with is_speaking := false, total_speech_ms := 0, silence_start_ms := 0 }
    ⟨hT5.1, hT5.2.1, hT5.2.2.1, hT5.2.2.2.1, hT5.2.2.2.2⟩ rfl hlo30
    (show (0 : ℕ) < 10000 by omega)
  rw [runVAD_append, hkrep, runVAD_cons, hfirst]
  simp only [Bool.false_eq_true, if_false, Nat.zero_add, ← hstS]
  rw [hmsplit, runVAD_append, ← hstT, hT1, runVAD_cons, hfin]
  simp only [if_true, Nat.zero_add]
  rw [hidle, hsp.1]

/-- Witness for C3: 10 loud frames (200 ms) then 26 quiet frames (520 ms)
yield exactly one finalize. -/
theorem vad_exactly_one_finalize_witness :
    (runVAD VADState.init
      (List.replicate 10 ((0 : ℚ), (0 : ℚ)) ++ List.replicate 26 ((-96 : ℚ), (0 : ℚ)))).2 = 1 :=
  vad_exactly_one_finalize 0 (-96) 0 0 10 26 (by norm_num) (by norm_num)
    (by norm_num) (by norm_num) (by norm_num)

/-- **C4** — From a fresh VAD state, feeding only frames above the onset
threshold for longer than the 10 s cap forces at least one
`should_finalize = true` even with zero silence frames. -/
theorem vad_cap_forces_finalize (e r : ℚ) (k : ℕ)
    (he : (-30 : ℚ) < e) (hk : 10000 < k * 20) :
    1 ≤ (runVAD VADState.init (List.replicate k (e, r))).2 := by
  have hsplit1 : List.replicate k (e, r) = (e, r) :: List.replicate (k - 1) (e, r) := by
    rw [← List.replicate_succ]
    congr 1
    omega
  have hsplit2 : List.replicate (k - 1) (e, r) =
      List.replicate 498 (e, r) ++ (e, r) :: List.replicate (k - 500) (e, r) := by
    rw [← List.replicate_succ, ← List.replicate_add]
    congr 1
    omega
  have hfirst : processChunk VADState.init e r 20 =
      ((⟨-30, -40, 100, 500, 10000, true, 20, 0, 20, [], 200⟩ : VADState), true, false) :=
    processChunk_speech_first VADState.init e r 20 rfl he
      (show (VADState.init).total_speech_ms + 20 < (VADState.init).max_speech_ms by
        norm_num [VADState.init])
  have hsp := runVAD_speech_run e r 498
    (⟨-30, -40, 100, 500, 10000, true, 20, 0, 20, [], 200⟩ : VADState)
    ⟨rfl, rfl, rfl, rfl, rfl⟩ rfl he rfl
    (show 20 + 498 * 20 < 10000 by norm_num)
  set stS := (runVAD (⟨-30, -40, 100, 500, 10000, true, 20, 0, 20, [], 200⟩ : VADState)
      (List.replicate 498 (e, r))).1 with hstS
  clear_value stS
  have hcap := processChunk_speech_cap stS e r 20 hsp.2.1 (hsp.2.2.2.2.1.symm ▸ he)
    (by rw [hsp.2.2.2.2.2.2.2.2, hsp.2.2.1])
  rw [hsplit1, runVAD_cons, hfirst]
  simp only [Bool.false_eq_true, if_false, Nat.zero_add]
  rw [hsplit2, runVAD_append, ← hstS, runVAD_cons, hcap]
  simp only [if_true]
  omega

/-- Witness for C4: 501 loud frames force a finalize. -/
theorem vad_cap_forces_finalize_witness :
    1 ≤ (runVAD VADState.init (List.replicate 501 ((0 : ℚ), (0 : ℚ)))).2 :=
  vad_cap_forces_finalize 0 0 501 (by norm_num) (by norm_num)

/-- **C5 counterexample** — The claim says trailing silence accumulates
only when the frame's energy is below the silence threshold (−40 dB).  In
the code a frame at −35 dB — between the silence threshold and the onset
threshold — also accumulates: after one loud frame puts a fresh VAD into
Speaking, a −35 dB frame advances `silence_start_ms` to 20 although
−35 is not below −40. -/
theorem vad_silence_band_counterexample :
    ((processChunk VADState.init (-20) 0 20).1.is_speaking = true) ∧
    ((processChunk (processChunk VADState.init (-20) 0 20).1 (-35) 0 20).1.silence_start_ms
      = 20) ∧
    ¬ ((-35 : ℚ) < (processChunk VADState.init (-20) 0 20).1.silence_threshold_db) := by
  refine ⟨by decide, by decide, by decide⟩

/-- **C5 (amended)** — While Speaking (and before the trigger fires), a
frame accumulates trailing-silence duration iff its energy is *not above
the speech-onset threshold*; the silence threshold plays no role, so
frames between the two thresholds do count toward the trigger. -/
theorem vad_silence_accumulation (st : VADState) (e r : ℚ) (d : ℕ)
    (hsp : st.is_speaking = true) (hd : 0 < d)
    (htr : st.silence_start_ms + d < st.silence_trigger_ms) :
    (processChunk st e r d).1.silence_start_ms = st.silence_start_ms + d ↔
      ¬ (st.speech_threshold_db < e) := by
  by_cases h : st.speech_threshold_db < e
  · have h0 : (processChunk st e r d).1.silence_start_ms = 0 := by
      simp only [processChunk, vadCapCheck, if_pos h, hsp, if_true]
      split <;> rfl
    rw [h0]
    constructor
    · intro habs; omega
    · intro habs; exact absurd h habs
  · have hstep : (processChunk st e r d).1.silence_start_ms = st.silence_start_ms + d := by
      have hc1 : ¬ (st.silence_trigger_ms ≤ st.silence_start_ms + d) := by omega
      simp only [processChunk, vadCapCheck, if_neg h, hsp, if_true, if_neg hc1]
      split <;> rfl
    rw [hstep]
    simp [h]

/-- Witness for C5 (amended), at a Speaking state and a −35 dB frame. -/
theorem vad_silence_accumulation_witness :
    ((processChunk { VADState.init with is_speaking := true } (-35) 0 20).1.silence_start_ms
        = 0 + 20) ↔
      ¬ (({ VADState.init with is_speaking := true } : VADState).speech_threshold_db
        < (-35 : ℚ)) :=
  vad_silence_accumulation { VADState.init with is_speaking := true } (-35) 0 20 rfl
    (by norm_num) (by norm_num [VADState.init])

/-! ### Orchestrator lemmas (C1, C2) -/

/-- One step of `runAudio`. -/
theorem runAudio_cons (tr : List Int → Option TranscriptionResult)
    (resample : List Int → List Int) (rasa : String → List RasaMsg)
    (tts : String → String → List Int) (s : VoiceSession)
    (c : List Int) (cs : List (List Int)) :
    runAudio tr resample rasa tts s (c :: cs) =
      ((runAudio tr resample rasa tts
          (processAudio tr resample rasa tts s c).session cs).1,
       (processAudio tr resample rasa tts s c).transcribe_calls +
         (runAudio tr resample rasa tts
           (processAudio tr resample rasa tts s c).session cs).2) := rfl

/-- Splitting a `runAudio` trace. -/
theorem runAudio_append (tr : List Int → Option TranscriptionResult)
    (resample : List Int → List Int) (rasa : String → List RasaMsg)
    (tts : String → String → List Int) (a b : List (List Int)) (s : VoiceSession) :
    runAudio tr resample rasa tts s (a ++ b) =
      ((runAudio tr resample rasa tts (runAudio tr resample rasa tts s a).1 b).1,
       (runAudio tr resample rasa tts s a).2 +
         (runAudio tr resample rasa tts (runAudio tr resample rasa tts s a).1 b).2) := by
  induction a generalizing s with
  | nil => simp [runAudio]
  | cons c cs ih => simp [runAudio_cons, ih, Nat.add_assoc]

/-- Below the 3000 ms minimum, `process_audio` only buffers: no transcribe
round trip, chunk appended, duration advanced by 20 ms. -/
theorem processAudio_buffering (tr : List Int → Option TranscriptionResult)
    (resample : List Int → List Int) (rasa : String → List RasaMsg)
    (tts : String → String → List Int) (s : VoiceSession) (c : List Int)
    (ha : s.is_active = true) (hd : s.buffer_duration_ms + 20 < 3000) :
    processAudio tr resample rasa tts s c =
      ⟨{ s with audio_buffer := s.audio_buffer ++ c,
                buffer_duration_ms := s.buffer_duration_ms + 20 }, none, 0, none⟩ := by
  unfold processAudio
  rw [if_neg (by rw [ha]; simp)]
  rw [if_pos (show s.buffer_duration_ms + CHUNK_DURATION_MS < MIN_BUFFER_DURATION_MS from by
    unfold CHUNK_DURATION_MS MIN_BUFFER_DURATION_MS
    omega)]
  rfl

/-- Reaching the 3000 ms minimum, `process_audio` flushes: it grabs and
resets the buffer, starts the transcribe round trip and hands over to the
post-flush logic. -/
theorem processAudio_flush (tr : List Int → Option TranscriptionResult)
    (resample : List Int → List Int) (rasa : String → List RasaMsg)
    (tts : String → String → List Int) (s : VoiceSession) (c : List Int)
    (ha : s.is_active = true) (hd : 3000 ≤ s.buffer_duration_ms + 20) :
    processAudio tr resample rasa tts s c =
      handleTranscript rasa tts
        { s with audio_buffer := [], buffer_duration_ms := 0 }
        (tr (resample (s.audio_buffer ++ c))) := by
  unfold processAudio
  rw [if_neg (by rw [ha]; simp)]
  rw [if_neg (show ¬ s.buffer_duration_ms + CHUNK_DURATION_MS < MIN_BUFFER_DURATION_MS from by
    unfold CHUNK_DURATION_MS MIN_BUFFER_DURATION_MS
    omega)]

/-- Whatever the collaborators return, the post-flush logic counts exactly
one transcribe round trip and leaves the (already reset) buffer fields
untouched. -/
theorem handleTranscript_shape (rasa : String → List RasaMsg)
    (tts : String → String → List Int) (s2 : VoiceSession)
    (tres : Option TranscriptionResult) :
    (handleTranscript rasa tts s2 tres).transcribe_calls = 1 ∧
    (handleTranscript rasa tts s2 tres).session.audio_buffer = s2.audio_buffer ∧
    (handleTranscript rasa tts s2 tres).session.buffer_duration_ms = s2.buffer_duration_ms := by
  cases tres with
  | none => exact ⟨rfl, rfl, rfl⟩
  | some t =>
    unfold handleTranscript
    dsimp only
    refine ⟨?_, ?_, ?_⟩ <;> (repeat' split) <;> rfl

/-- The confidence gate: a non-blank transcript below the floor is dropped
with no reply, no Rasa message, and the session otherwise untouched. -/
theorem handleTranscript_low_confidence (rasa : String → List RasaMsg)
    (tts : String → String → List Int) (s2 : VoiceSession)
    (t : TranscriptionResult) (htext : pyStrip t.text ≠ "")
    (hconf : t.confidence < MIN_CONFIDENCE_THRESHOLD) :
    handleTranscript rasa tts s2 (some t) = ⟨s2, none, 1, none⟩ := by
  unfold handleTranscript
  dsimp only
  rw [if_neg htext, if_pos hconf]

/-- A run of chunks that stays below the minimum only buffers. -/
theorem runAudio_buffering (tr : List Int → Option TranscriptionResult)
    (resample : List Int → List Int) (rasa : String → List RasaMsg)
    (tts : String → String → List Int) (cs : List (List Int)) :
    ∀ s : VoiceSession, s.is_active = true →
    s.buffer_duration_ms + cs.length * 20 < 3000 →
    (runAudio tr resample rasa tts s cs).2 = 0 ∧
    (runAudio tr resample rasa tts s cs).1.is_active = true ∧
    (runAudio tr resample rasa tts s cs).1.buffer_duration_ms =
      s.buffer_duration_ms + cs.length * 20 := by
  induction cs with
  | nil =>
    intro s ha hd
    exact ⟨rfl, ha, by simp [runAudio]⟩
  | cons c cs ih =>
    intro s ha hd
    have hstep := processAudio_buffering tr resample rasa tts s c ha
      (by simp only [List.length_cons] at hd; omega)
    have hrest := ih { s with audio_buffer := s.audio_buffer ++ c,
                              buffer_duration_ms := s.buffer_duration_ms + 20 }
      ha (show s.buffer_duration_ms + 20 + cs.length * 20 < 3000 from by
        simp only [List.length_cons] at hd
        omega)
    rw [runAudio_cons, hstep]
    dsimp only
    simp only [Nat.zero_add]
    refine ⟨hrest.1, hrest.2.1, ?_⟩
    rw [hrest.2.2]
    show s.buffer_duration_ms + 20 + cs.length * 20 = s.buffer_duration_ms + (cs.length + 1) * 20
    omega

/-- **C1 counterexample** — The claim predicts that 3.0 s of inbound
silence (150 × 20 ms frames of zero PCM) triggers no flush and the buffer
persists.  In the code the 150th chunk reaches `MIN_BUFFER_DURATION_MS`
and flushes regardless of content: one transcribe round trip is started
(here the transcriber returns `None` on silence) and the buffer is reset
to empty. -/
theorem buffer_flush_silence_counterexample :
    (runAudio (fun _ => none) id (fun _ => []) (fun _ _ => [])
        ({ session_id := "sess", phone_number := "9000000000" } : VoiceSession)
        (List.replicate 150 (List.replicate 320 (0 : Int)))).2 = 1 ∧
    (runAudio (fun _ => none) id (fun _ => []) (fun _ _ => [])
        ({ session_id := "sess", phone_number := "9000000000" } : VoiceSession)
        (List.replicate 150 (List.replicate 320 (0 : Int)))).1.audio_buffer = [] := by
  have hsplit : List.replicate 150 (List.replicate 320 (0 : Int)) =
      List.replicate 149 (List.replicate 320 (0 : Int)) ++ [List.replicate 320 (0 : Int)] := by
    rw [← List.replicate_succ']
  have hbuf := runAudio_buffering (fun _ => none) id (fun _ => []) (fun _ _ => [])
    (List.replicate 149 (List.replicate 320 (0 : Int)))
    ({ session_id := "sess", phone_number := "9000000000" } : VoiceSession)
    rfl (by rw [List.length_replicate]; norm_num)
  set sM := (runAudio (fun _ => none) id (fun _ => []) (fun _ _ => [])
      ({ session_id := "sess", phone_number := "9000000000" } : VoiceSession)
      (List.replicate 149 (List.replicate 320 (0 : Int)))).1 with hsM
  clear_value sM
  have hflush := processAudio_flush (fun _ => none) id (fun _ => []) (fun _ _ => [])
    sM (List.replicate 320 (0 : Int)) hbuf.2.1
    (by rw [hbuf.2.2, List.length_replicate])
  have hshape := handleTranscript_shape (fun _ => []) (fun _ _ => [])
    { sM with audio_buffer := [], buffer_duration_ms := 0 }
    ((fun _ => (none : Option TranscriptionResult))
      (id (sM.audio_buffer ++ List.replicate 320 (0 : Int))))
  rw [hsplit, runAudio_append, ← hsM, hbuf.1, runAudio_cons, hflush]
  simp only [runAudio]
  exact ⟨by rw [hshape.1], hshape.2.1⟩

/-- **C1 (amended)** — In `process_audio` a flush is triggered *solely* by
`buffer_duration_ms` reaching `MIN_BUFFER_DURATION_MS` (3000 ms); the
segmenter's `should_finalize` signal is never consulted.  Hence any 150
inbound 20 ms chunks — silence or speech, for any transcriber, resampler,
dialogue and TTS collaborators — cause exactly one flush with exactly one
transcribe round trip, after which `audio_buffer` is empty and
`buffer_duration_ms` is zero. -/
theorem buffer_flush_at_minimum (tr : List Int → Option TranscriptionResult)
    (resample : List Int → List Int) (rasa : String → List RasaMsg)
    (tts : String → String → List Int) (sid phone : String)
    (chunks : List (List Int)) (hlen : chunks.length = 150) :
    (runAudio tr resample rasa tts
        ({ session_id := sid, phone_number := phone } : VoiceSession) chunks).2 = 1 ∧
    (runAudio tr resample rasa tts
        ({ session_id := sid, phone_number := phone } : VoiceSession) chunks).1.audio_buffer
      = [] ∧
    (runAudio tr resample rasa tts
        ({ session_id := sid, phone_number := phone } : VoiceSession)
        chunks).1.buffer_duration_ms = 0 := by
  have hsplit : chunks = chunks.take 149 ++ chunks.drop 149 :=
    (List.take_append_drop 149 chunks).symm
  have hlen149 : (chunks.take 149).length = 149 := by
    rw [List.length_take]
    omega
  have hlastlen : (chunks.drop 149).length = 1 := by
    rw [List.length_drop, hlen]
  obtain ⟨c, hc⟩ := List.length_eq_one.mp hlastlen
  have hbuf := runAudio_buffering tr resample rasa tts (chunks.take 149)
    ({ session_id := sid, phone_number := phone } : VoiceSession) rfl
    (by rw [hlen149]; norm_num)
  set sM := (runAudio tr resample rasa tts
      ({ session_id := sid, phone_number := phone } : VoiceSession) (chunks.take 149)).1 with hsM
  clear_value sM
  have hflush := processAudio_flush tr resample rasa tts sM c hbuf.2.1
    (by rw [hbuf.2.2, hlen149])
  have hshape := handleTranscript_shape rasa tts
    { sM with audio_buffer := [], buffer_duration_ms := 0 }
    (tr (resample (sM.audio_buffer ++ c)))
  rw [hsplit, runAudio_append, ← hsM, hbuf.1, hc, runAudio_cons, hflush]
  simp only [runAudio]
  exact ⟨by rw [hshape.1], hshape.2.1, hshape.2.2⟩

/-- Witness for C1 (amended): 150 one-byte chunks with trivial
collaborators. -/
theorem buffer_flush_at_minimum_witness :
    (runAudio (fun _ => none) id (fun _ => []) (fun _ _ => [])
        ({ session_id := "s", phone_number := "p" } : VoiceSession)
        (List.replicate 150 [(1 : Int)])).2 = 1 ∧
    (runAudio (fun _ => none) id (fun _ => []) (fun _ _ => [])
        ({ session_id := "s", phone_number := "p" } : VoiceSession)
        (List.replicate 150 [(1 : Int)])).1.audio_buffer = [] ∧
    (runAudio (fun _ => none) id (fun _ => []) (fun _ _ => [])
        ({ session_id := "s", phone_number := "p" } : VoiceSession)
        (List.replicate 150 [(1 : Int)])).1.buffer_duration_ms = 0 :=
  buffer_flush_at_minimum (fun _ => none) id (fun _ => []) (fun _ _ => []) "s" "p"
    (List.replicate 150 [(1 : Int)]) (by rw [List.length_replicate])

/-- **C2** — When a flushed buffer transcribes with confidence below the
0.4 floor, `process_audio` returns no reply audio, leaves `turn_count`
unchanged, and sends nothing to the dialogue engine: the transcript is
discarded silently. -/
theorem confidence_gate (tr : List Int → Option TranscriptionResult)
    (resample : List Int → List Int) (rasa : String → List RasaMsg)
    (tts : String → String → List Int) (s : VoiceSession) (c : List Int)
    (t : TranscriptionResult)
    (ha : s.is_active = true) (hd : 3000 ≤ s.buffer_duration_ms + 20)
    (htr : tr (resample (s.audio_buffer ++ c)) = some t)
    (htext : pyStrip t.text ≠ "")
    (hconf : t.confidence < MIN_CONFIDENCE_THRESHOLD) :
    (processAudio tr resample rasa tts s c).reply = none ∧
    (processAudio tr resample rasa tts s c).session.turn_count = s.turn_count ∧
    (processAudio tr resample rasa tts s c).rasa_message = none := by
  rw [processAudio_flush tr resample rasa tts s c ha hd, htr,
    handleTranscript_low_confidence rasa tts _ t htext hconf]
  exact ⟨rfl, rfl, rfl⟩

/-- Witness for C2 at a concrete low-confidence transcription. -/
theorem confidence_gate_witness :
    (processAudio (fun _ => some ⟨"hello", 1 / 10, true, "en", []⟩) id (fun _ => [])
        (fun _ _ => [])
        ({ session_id := "s", phone_number := "p", buffer_duration_ms := 2980 } : VoiceSession)
        [(0 : Int)]).reply = none ∧
    (processAudio (fun _ => some ⟨"hello", 1 / 10, true, "en", []⟩) id (fun _ => [])
        (fun _ _ => [])
        ({ session_id := "s", phone_number := "p", buffer_duration_ms := 2980 } : VoiceSession)
        [(0 : Int)]).session.turn_count =
      ({ session_id := "s", phone_number := "p",
         buffer_duration_ms := 2980 } : VoiceSession).turn_count ∧
    (processAudio (fun _ => some ⟨"hello", 1 / 10, true, "en", []⟩) id (fun _ => [])
        (fun _ _ => [])
        ({ session_id := "s", phone_number := "p", buffer_duration_ms := 2980 } : VoiceSession)
        [(0 : Int)]).rasa_message = none :=
  confidence_gate (fun _ => some ⟨"hello", 1 / 10, true, "en", []⟩) id (fun _ => [])
    (fun _ _ => [])
    ({ session_id := "s", phone_number := "p", buffer_duration_ms := 2980 } : VoiceSession)
    [(0 : Int)] ⟨"hello", 1 / 10, true, "en", []⟩ rfl (by norm_num) rfl
    (by decide) (by norm_num [MIN_CONFIDENCE_THRESHOLD])

/-! ### Phone normalization (C9) -/

/-- Deleting a pattern (`rep = []`) only ever keeps input characters. -/
theorem mem_of_mem_replaceAux (pat : List Char) :
    ∀ (l : List Char) (skip : Nat) (c : Char),
      c ∈ replaceAux pat [] l skip → c ∈ l := by
  intro l
  induction l with
  | nil =>
    intro skip c hc
    rw [replaceAux] at hc
    exact absurd hc (List.not_mem_nil c)
  | cons a t ih =>
    intro skip c hc
    cases skip with
    | succ n =>
      rw [replaceAux] at hc
      exact List.mem_cons_of_mem _ (ih n c hc)
    | zero =>
      rw [replaceAux] at hc
      by_cases h : pat ≠ [] ∧ pat.isPrefixOf (a :: t)
      · rw [if_pos h] at hc
        rw [List.nil_append] at hc
        exact List.mem_cons_of_mem _ (ih _ c hc)
      · rw [if_neg h] at hc
        rcases List.mem_cons.mp hc with rfl | hc'
        · exact List.mem_cons_self _ _
        · exact List.mem_cons_of_mem _ (ih 0 c hc')

/-- Replacing a single character by nothing removes all its occurrences. -/
theorem not_mem_replaceAux_single (x : Char) :
    ∀ (l : List Char) (skip : Nat), x ∉ replaceAux [x] [] l skip := by
  intro l
  induction l with
  | nil =>
    intro skip hc
    rw [replaceAux] at hc
    exact absurd hc (List.not_mem_nil x)
  | cons a t ih =>
    intro skip hc
    cases skip with
    | succ n =>
      rw [replaceAux] at hc
      exact ih n hc
    | zero =>
      rw [replaceAux] at hc
      by_cases h : ([x] : List Char) ≠ [] ∧ ([x] : List Char).isPrefixOf (a :: t)
      · rw [if_pos h] at hc
        rw [List.nil_append] at hc
        exact ih _ hc
      · rw [if_neg h] at hc
        have hax : a ≠ x := by
          intro hax
          exact h ⟨by simp, by simp [List.isPrefixOf, hax]⟩
        rcases List.mem_cons.mp hc with heq | hc'
        · exact hax heq.symm
        · exact ih 0 hc'

/-- `strip` only ever keeps input characters. -/
theorem mem_of_mem_pyStripList (l : List Char) (c : Char)
    (hc : c ∈ pyStripList l) : c ∈ l := by
  unfold pyStripList at hc
  rw [List.mem_reverse] at hc
  have h1 := (List.dropWhile_sublist (l := (l.dropWhile isPyWs).reverse) isPyWs).subset hc
  rw [List.mem_reverse] at h1
  exact (List.dropWhile_sublist (l := l) isPyWs).subset h1

/-- **C9 counterexample** — The claim says all non-digit characters are
stripped and the last 10 *digits* kept, which would send
`"98765-43210"` to `"9876543210"`.  The code removes only `"+91"`, `"+"`
and spaces, then keeps the last 10 *characters*: the hyphen survives and
a digit is dropped instead. -/
theorem normalize_phone_counterexample :
    normalizePhone "98765-43210" = "8765-43210" ∧
    normalizePhone "98765-43210" ≠ "9876543210" ∧
    '-' ∈ (normalizePhone "98765-43210").data := by
  refine ⟨by decide, by decide, by decide⟩

/-- **C9 (amended)** — `parse_start_event` normalizes the caller number by
deleting `"+91"` substrings, then all `'+'` characters, then all spaces,
trimming surrounding whitespace, and finally truncating to the last 10
*characters*; other non-digit characters are preserved.  The result never
exceeds 10 characters and contains no `'+'` and no space; the spec's
scenario `"+91 98765 43210" ↦ "9876543210"` does hold. -/
theorem normalize_phone_spec :
    normalizePhone "+91 98765 43210" = "9876543210" ∧
    (∀ s : String, (normalizePhone s).length ≤ 10) ∧
    (∀ s : String, ∀ c ∈ (normalizePhone s).data, c ≠ '+' ∧ c ≠ ' ') := by
  refine ⟨by decide, ?_, ?_⟩
  · intro s
    simp only [normalizePhone]
    set q := pyStrip (pyReplace (pyReplace (pyReplace s "+91" "") "+" "") " " "") with hq
    by_cases h : 10 < q.length
    · rw [if_pos h]
      show (q.data.drop (q.length - 10)).length ≤ 10
      have hlen : q.length = q.data.length := rfl
      rw [List.length_drop]
      omega
    · rw [if_neg h]
      omega
  · intro s c hc
    simp only [normalizePhone] at hc
    set q := pyStrip (pyReplace (pyReplace (pyReplace s "+91" "") "+" "") " " "") with hq
    have main : c ∈ q.data → c ≠ '+' ∧ c ≠ ' ' := by
      intro hmem
      rw [hq] at hmem
      have hl3 : c ∈ replaceList [' '] []
          (replaceList ['+'] [] (replaceList "+91".data [] s.data)) :=
        mem_of_mem_pyStripList _ c hmem
      constructor
      · intro hplus
        subst hplus
        exact not_mem_replaceAux_single '+' _ 0 (mem_of_mem_replaceAux [' '] _ 0 '+' hl3)
      · intro hspace
        subst hspace
        exact not_mem_replaceAux_single ' ' _ 0 hl3
    by_cases h : 10 < q.length
    · rw [if_pos h] at hc
      have hc2 : c ∈ q.data.drop (q.length - 10) := hc
      exact main (List.drop_subset _ _ hc2)
    · rw [if_neg h] at hc
      exact main hc

/-- Witness for C9 (amended), evaluated at a concrete messy number. -/
theorem normalize_phone_spec_witness :
    normalizePhone "+91 98765 43210" = "9876543210" ∧
    (normalizePhone "+91-98765-43210").length ≤ 10 ∧
    ∀ c ∈ (normalizePhone "+91-98765-43210").data, c ≠ '+' ∧ c ≠ ' ' :=
  ⟨normalize_phone_spec.1, normalize_phone_spec.2.1 "+91-98765-43210",
   fun c hc => normalize_phone_spec.2.2 "+91-98765-43210" c hc⟩

/-! ### Transcript-normalizer lemmas (C7, C8) -/

/-- Strings with equal character data are equal. -/
theorem string_eq_of_data_eq {a b : String} (h : a.data = b.data) : a = b := by
  cases a
  cases b
  cases h
  rfl

/-- An element of `getLast?` is an element of the list. -/
theorem getLast?_mem_self {α : Type} {l : List α} {a : α} (h : l.getLast? = some a) :
    a ∈ l := by
  have h2 : a ∈ l.getLast? := by
    rw [h]
    rfl
  obtain ⟨hne, heq⟩ := List.mem_getLast?_eq_getLast h2
  rw [heq]
  exact List.getLast_mem hne

/-- `dropWhile` skips over a block that satisfies the predicate. -/
theorem dropWhile_append_all {q : Char → Bool} :
    ∀ {xs : List Char} (ys : List Char), (∀ c ∈ xs, q c = true) →
      List.dropWhile q (xs ++ ys) = List.dropWhile q ys
  | [], ys, _ => rfl
  | x :: xs, ys, h => by
    rw [List.cons_append, List.dropWhile_cons_of_pos (h x (List.mem_cons_self x xs))]
    exact dropWhile_append_all ys fun c hc => h c (List.mem_cons_of_mem _ hc)

/-- `lookupLast` only returns bindings present in the table. -/
theorem lookupLast_mem {α β : Type} [DecidableEq α] :
    ∀ (tbl : List (α × β)) (k : α) (v : β),
      lookupLast tbl k = some v → (k, v) ∈ tbl := by
  intro tbl
  induction tbl with
  | nil => intro k v h; exact absurd h (by rw [lookupLast]; simp)
  | cons kv rest ih =>
    intro k v h
    rw [lookupLast] at h
    cases hrec : lookupLast rest k with
    | some v2 =>
      rw [hrec] at h
      cases h
      exact List.mem_cons_of_mem _ (ih k v hrec)
    | none =>
      rw [hrec] at h
      by_cases hk : kv.1 = k
      · rw [if_pos hk] at h
        cases h
        subst hk
        exact List.mem_cons_self _ _
      · rw [if_neg hk] at h
        exact absurd h (by simp)

/-- `rstrip` decomposition: the word is its stripped prefix plus an
all-punctuation tail, recovered by `drop`. -/
theorem rdropPunct_decomp (l : List Char) :
    l = rdropPunct l ++ l.drop (rdropPunct l).length ∧
    ∀ c ∈ l.drop (rdropPunct l).length, isPunct c = true := by
  have hsplit : l = rdropPunct l ++ (l.reverse.takeWhile isPunct).reverse := by
    unfold rdropPunct
    rw [← List.reverse_append, List.takeWhile_append_dropWhile, List.reverse_reverse]
  have hdrop : l.drop (rdropPunct l).length = (l.reverse.takeWhile isPunct).reverse := by
    have h2 := List.drop_left (rdropPunct l) ((l.reverse.takeWhile isPunct).reverse)
    rw [← hsplit] at h2
    exact h2
  refine ⟨by rw [hdrop, ← hsplit], ?_⟩
  intro c hc
  rw [hdrop, List.mem_reverse] at hc
  exact List.mem_takeWhile_imp hc

/-- Appending punctuation does not change the `rstrip` result. -/
theorem rdropPunct_append (a p : List Char) (hp : ∀ c ∈ p, isPunct c = true) :
    rdropPunct (a ++ p) = rdropPunct a := by
  unfold rdropPunct
  rw [List.reverse_append, dropWhile_append_all _ fun c hc => hp c (List.mem_reverse.mp hc)]

/-- Every word produced by the split loop is non-empty and
whitespace-free (given a whitespace-free accumulator). -/
theorem wordsAux_good :
    ∀ (l acc : List Char), (∀ c ∈ acc, isPyWs c = false) →
      ∀ u ∈ wordsAux l acc, u ≠ [] ∧ ∀ c ∈ u, isPyWs c = false := by
  intro l
  induction l with
  | nil =>
    intro acc hacc u hu
    rw [wordsAux] at hu
    by_cases h : acc = []
    · rw [if_pos h] at hu
      exact absurd hu (List.not_mem_nil u)
    · rw [if_neg h] at hu
      rcases List.mem_cons.mp hu with rfl | hu'
      · refine ⟨by simpa using h, ?_⟩
        intro c hc
        exact hacc c (List.mem_reverse.mp hc)
      · exact absurd hu' (List.not_mem_nil u)
  | cons a t ih =>
    intro acc hacc u hu
    rw [wordsAux] at hu
    by_cases hws : isPyWs a = true
    · rw [if_pos hws] at hu
      by_cases h : acc = []
      · rw [if_pos h] at hu
        exact ih [] (by simp) u hu
      · rw [if_neg h] at hu
        rcases List.mem_cons.mp hu with rfl | hu'
        · refine ⟨by simpa using h, ?_⟩
          intro c hc
          exact hacc c (List.mem_reverse.mp hc)
        · exact ih [] (by simp) u hu'
    · rw [if_neg hws] at hu
      refine ih (a :: acc) ?_ u hu
      intro c hc
      rcases List.mem_cons.mp hc with rfl | hc'
      · exact Bool.eq_false_iff.mpr hws
      · exact hacc c hc'

/-- Characters of split words come from the input or the accumulator. -/
theorem wordsAux_subset :
    ∀ (l acc : List Char), ∀ u ∈ wordsAux l acc, ∀ c ∈ u, c ∈ l ∨ c ∈ acc := by
  intro l
  induction l with
  | nil =>
    intro acc u hu c hc
    rw [wordsAux] at hu
    by_cases h : acc = []
    · rw [if_pos h] at hu
      exact absurd hu (List.not_mem_nil u)
    · rw [if_neg h] at hu
      rcases List.mem_cons.mp hu with rfl | hu'
      · exact Or.inr (List.mem_reverse.mp hc)
      · exact absurd hu' (List.not_mem_nil u)
  | cons a t ih =>
    intro acc u hu c hc
    rw [wordsAux] at hu
    by_cases hws : isPyWs a = true
    · rw [if_pos hws] at hu
      by_cases h : acc = []
      · rw [if_pos h] at hu
        rcases ih [] u hu c hc with h1 | h1
        · exact Or.inl (List.mem_cons_of_mem _ h1)
        · exact absurd h1 (List.not_mem_nil c)
      · rw [if_neg h] at hu
        rcases List.mem_cons.mp hu with rfl | hu'
        · exact Or.inr (List.mem_reverse.mp hc)
        · rcases ih [] u hu' c hc with h1 | h1
          · exact Or.inl (List.mem_cons_of_mem _ h1)
          · exact absurd h1 (List.not_mem_nil c)
    · rw [if_neg hws] at hu
      rcases ih (a :: acc) u hu c hc with h1 | h1
      · exact Or.inl (List.mem_cons_of_mem _ h1)
      · rcases List.mem_cons.mp h1 with rfl | h2
        · exact Or.inl (List.mem_cons_self _ _)
        · exact Or.inr h2

/-- Scanning a whitespace-free block accumulates it (reversed). -/
theorem wordsAux_append_word :
    ∀ (w l acc : List Char), (∀ c ∈ w, isPyWs c = false) →
      wordsAux (w ++ l) acc = wordsAux l (w.reverse ++ acc) := by
  intro w
  induction w with
  | nil => intro l acc _; simp
  | cons a w ih =>
    intro l acc hw
    rw [List.cons_append, wordsAux,
      if_neg (by rw [hw a (List.mem_cons_self a w)]; simp),
      ih l (a :: acc) fun c hc => hw c (List.mem_cons_of_mem _ hc)]
    rw [List.reverse_cons, List.append_assoc]
    rfl

/-- `joinSpace` of non-empty words is non-empty. -/
theorem joinSpace_ne_nil :
    ∀ (L : List String), L ≠ [] → (∀ w ∈ L, w.data ≠ []) →
      (joinSpace L).data ≠ [] := by
  intro L
  match L with
  | [] => intro h _; exact absurd rfl h
  | [w] => intro _ hw; exact hw w (List.mem_cons_self _ _)
  | w :: w2 :: rest =>
    intro _ hw
    show (w ++ " " ++ joinSpace (w2 :: rest)).data ≠ []
    rw [show (w ++ " " ++ joinSpace (w2 :: rest)).data
        = (w.data ++ [' ']) ++ (joinSpace (w2 :: rest)).data from rfl]
    intro habs
    rcases List.append_eq_nil.mp habs with ⟨h1, _⟩
    rcases List.append_eq_nil.mp h1 with ⟨h2, _⟩
    exact hw w (List.mem_cons_self _ _) h2

/-- Splitting a space-joined list of good words recovers the list. -/
theorem words_joinSpace :
    ∀ (L : List String), (∀ w ∈ L, w.data ≠ [] ∧ ∀ c ∈ w.data, isPyWs c = false) →
      words (joinSpace L).data = L.map String.data := by
  intro L
  match L with
  | [] => intro _; rfl
  | [w] =>
    intro hL
    obtain ⟨hne, hnws⟩ := hL w (List.mem_cons_self _ _)
    show wordsAux w.data [] = [w.data]
    have h1 : wordsAux (w.data ++ []) [] = wordsAux [] (w.data.reverse ++ []) :=
      wordsAux_append_word w.data [] [] hnws
    rw [List.append_nil] at h1
    rw [h1, wordsAux, if_neg (by simpa using fun h => hne (by simpa using congrArg List.reverse h))]
    simp
  | w :: w2 :: rest =>
    intro hL
    obtain ⟨hne, hnws⟩ := hL w (List.mem_cons_self _ _)
    have hrest := words_joinSpace (w2 :: rest) fun x hx => hL x (List.mem_cons_of_mem _ hx)
    show wordsAux (w ++ " " ++ joinSpace (w2 :: rest)).data [] = w.data :: (w2 :: rest).map String.data
    rw [show (w ++ " " ++ joinSpace (w2 :: rest)).data
        = (w.data ++ [' ']) ++ (joinSpace (w2 :: rest)).data from rfl,
      List.append_assoc, List.singleton_append]
    rw [wordsAux_append_word w.data _ [] hnws, List.append_nil, wordsAux]
    rw [if_pos (by decide)]
    rw [if_neg (by simpa using fun h => hne (by simpa using congrArg List.reverse h))]
    rw [List.reverse_reverse]
    exact congrArg _ hrest

/-- Characters of a space-joined list are spaces or word characters. -/
theorem joinSpace_mem :
    ∀ (L : List String) (c : Char), c ∈ (joinSpace L).data →
      c = ' ' ∨ ∃ w ∈ L, c ∈ w.data := by
  intro L
  match L with
  | [] => intro c hc; exact absurd hc (List.not_mem_nil c)
  | [w] => intro c hc; exact Or.inr ⟨w, List.mem_cons_self _ _, hc⟩
  | w :: w2 :: rest =>
    intro c hc
    rw [show (joinSpace (w :: w2 :: rest)) = w ++ " " ++ joinSpace (w2 :: rest) from rfl,
      show (w ++ " " ++ joinSpace (w2 :: rest)).data
        = (w.data ++ [' ']) ++ (joinSpace (w2 :: rest)).data from rfl,
      List.append_assoc, List.singleton_append] at hc
    rcases List.mem_append.mp hc with h1 | h1
    · exact Or.inr ⟨w, List.mem_cons_self _ _, h1⟩
    · rcases List.mem_cons.mp h1 with rfl | h2
      · exact Or.inl rfl
      · rcases joinSpace_mem (w2 :: rest) c h2 with h3 | ⟨x, hx, hcx⟩
        · exact Or.inl h3
        · exact Or.inr ⟨x, List.mem_cons_of_mem _ hx, hcx⟩

set_option maxRecDepth 8192 in
set_option maxHeartbeats 2000000 in
/-- Every correction-table value is non-blank, whitespace-free and
free of ASCII capitals. -/
theorem tbl_values_good :
    ∀ kv ∈ PHONETIC_ENGLISH_CORRECTIONS,
      kv.2.data ≠ [] ∧ (∀ c ∈ kv.2.data, isPyWs c = false) ∧
      (∀ c ∈ kv.2.data, asciiUpper c = false) := by
  decide

set_option maxRecDepth 8192 in
set_option maxHeartbeats 4000000 in
/-- Every correction-table value is stable under a second lookup: its
punctuation-stripped form is either absent from the table or mapped to
itself. -/
theorem tbl_values_stable :
    ∀ kv ∈ PHONETIC_ENGLISH_CORRECTIONS,
      lookupLast PHONETIC_ENGLISH_CORRECTIONS (stripPunct kv.2) = none ∨
      lookupLast PHONETIC_ENGLISH_CORRECTIONS (stripPunct kv.2) = some (stripPunct kv.2) := by
  decide

/-- `correctWord` on a word absent from the table. -/
theorem correctWord_eq_of_none (w : String)
    (h : lookupLast PHONETIC_ENGLISH_CORRECTIONS (stripPunct w) = none) :
    correctWord w = w := by
  unfold correctWord
  rw [h]
  rfl

/-- `correctWord` on a word found in the table. -/
theorem correctWord_eq_of_some (w v : String)
    (h : lookupLast PHONETIC_ENGLISH_CORRECTIONS (stripPunct w) = some v) :
    correctWord w = v ++ String.mk (w.data.drop (stripPunct w).data.length) := by
  unfold correctWord
  rw [h]
  rfl

/-- `correctWord` keeps words non-blank and whitespace-free. -/
theorem correctWord_good (w : String) (hne : w.data ≠ [])
    (hws : ∀ c ∈ w.data, isPyWs c = false) :
    (correctWord w).data ≠ [] ∧ ∀ c ∈ (correctWord w).data, isPyWs c = false := by
  cases h : lookupLast PHONETIC_ENGLISH_CORRECTIONS (stripPunct w) with
  | none =>
    rw [correctWord_eq_of_none w h]
    exact ⟨hne, hws⟩
  | some v =>
    rw [correctWord_eq_of_some w v h]
    have hv := tbl_values_good _ (lookupLast_mem _ _ _ h)
    rw [show (v ++ String.mk (w.data.drop (stripPunct w).data.length)).data
        = v.data ++ w.data.drop (stripPunct w).data.length from rfl]
    constructor
    · intro habs
      exact hv.1 (List.append_eq_nil.mp habs).1
    · intro c hc
      rcases List.mem_append.mp hc with h1 | h1
      · exact hv.2.1 c h1
      · exact hws c (List.drop_subset _ _ h1)

/-- `correctWord` introduces no ASCII capitals. -/
theorem correctWord_noUpper (w : String)
    (hup : ∀ c ∈ w.data, asciiUpper c = false) :
    ∀ c ∈ (correctWord w).data, asciiUpper c = false := by
  cases h : lookupLast PHONETIC_ENGLISH_CORRECTIONS (stripPunct w) with
  | none =>
    rw [correctWord_eq_of_none w h]
    exact hup
  | some v =>
    rw [correctWord_eq_of_some w v h]
    have hv := tbl_values_good _ (lookupLast_mem _ _ _ h)
    rw [show (v ++ String.mk (w.data.drop (stripPunct w).data.length)).data
        = v.data ++ w.data.drop (stripPunct w).data.length from rfl]
    intro c hc
    rcases List.mem_append.mp hc with h1 | h1
    · exact hv.2.2 c h1
    · exact hup c (List.drop_subset _ _ h1)

/-- Correcting a word twice is the same as correcting it once. -/
theorem correctWord_idem (w : String) :
    correctWord (correctWord w) = correctWord w := by
  cases h : lookupLast PHONETIC_ENGLISH_CORRECTIONS (stripPunct w) with
  | none =>
    rw [correctWord_eq_of_none w h]
    exact correctWord_eq_of_none w h
  | some v =>
    have hw := correctWord_eq_of_some w v h
    have hppunct : ∀ c ∈ (String.mk (w.data.drop (stripPunct w).data.length)).data,
        isPunct c = true := by
      intro c hc
      exact (rdropPunct_decomp w.data).2 c hc
    have hstrip : stripPunct (v ++ String.mk (w.data.drop (stripPunct w).data.length))
        = stripPunct v := by
      apply string_eq_of_data_eq
      show rdropPunct (v.data ++ (String.mk (w.data.drop (stripPunct w).data.length)).data)
        = rdropPunct v.data
      exact rdropPunct_append _ _ hppunct
    rcases tbl_values_stable _ (lookupLast_mem _ _ _ h) with hnone | hsome
    · rw [hw]
      exact correctWord_eq_of_none _ (by rw [hstrip]; exact hnone)
    · rw [hw]
      rw [correctWord_eq_of_some _ (stripPunct v) (by rw [hstrip]; exact hsome)]
      apply string_eq_of_data_eq
      show (stripPunct v).data ++
          ((v ++ String.mk (w.data.drop (stripPunct w).data.length)).data.drop
            (stripPunct (v ++ String.mk (w.data.drop (stripPunct w).data.length))).data.length)
        = (v ++ String.mk (w.data.drop (stripPunct w).data.length)).data
      rw [hstrip]
      rw [show (v ++ String.mk (w.data.drop (stripPunct w).data.length)).data
          = v.data ++ w.data.drop (stripPunct w).data.length from rfl]
      have hlen : (stripPunct v).data.length ≤ v.data.length := by
        show (rdropPunct v.data).length ≤ v.data.length
        unfold rdropPunct
        rw [List.length_reverse]
        have := (List.dropWhile_sublist (l := v.data.reverse) isPunct).length_le
        rwa [List.length_reverse] at this
      rw [List.drop_append_of_le_length hlen, ← List.append_assoc]
      have hdec := (rdropPunct_decomp v.data).1
      rw [show (stripPunct v).data = rdropPunct v.data from rfl, ← hdec]

/-- Whitespace-free lists have no whitespace runs. -/
theorem noWsRun_of_all :
    ∀ (l : List Char), (∀ c ∈ l, isPyWs c = false) → noWsRun l = true := by
  intro l
  induction l with
  | nil => intro _; rfl
  | cons a t ih =>
    intro h
    cases t with
    | nil => rfl
    | cons b t2 =>
      rw [noWsRun, h a (List.mem_cons_self _ _)]
      simp only [Bool.false_and, Bool.not_false, Bool.true_and]
      exact ih fun c hc => h c (List.mem_cons_of_mem _ hc)

/-- Prepending a whitespace-free block preserves `noWsRun`. -/
theorem noWsRun_append_left :
    ∀ (w r : List Char), (∀ c ∈ w, isPyWs c = false) → noWsRun r = true →
      noWsRun (w ++ r) = true := by
  intro w
  induction w with
  | nil => intro r _ hr; exact hr
  | cons a w2 ih =>
    intro r hw hr
    cases w2 with
    | nil =>
      cases r with
      | nil => rfl
      | cons b t =>
        rw [List.singleton_append, noWsRun, hw a (List.mem_cons_self _ _)]
        simp only [Bool.false_and, Bool.not_false, Bool.true_and]
        exact hr
    | cons a2 w3 =>
      rw [List.cons_append, List.cons_append, noWsRun, hw a (List.mem_cons_self _ _)]
      simp only [Bool.false_and, Bool.not_false, Bool.true_and]
      rw [← List.cons_append]
      exact ih r (fun c hc => hw c (List.mem_cons_of_mem _ hc)) hr

/-- Joining non-blank whitespace-free words with single spaces is
whitespace-normalized. -/
theorem wsNormalized_joinSpace :
    ∀ (L : List String), (∀ w ∈ L, w.data ≠ [] ∧ ∀ c ∈ w.data, isPyWs c = false) →
      wsNormalized (joinSpace L).data = true := by
  intro L
  match L with
  | [] => intro _; rfl
  | [w] =>
    intro hL
    obtain ⟨hne, hnws⟩ := hL w (List.mem_cons_self _ _)
    show wsNormalized w.data = true
    unfold wsNormalized
    simp only [Bool.and_eq_true]
    refine ⟨⟨?_, ?_⟩, noWsRun_of_all _ hnws⟩
    · cases hd : w.data with
      | nil => rfl
      | cons a t =>
        show (!isPyWs a) = true
        rw [hnws a (hd ▸ List.mem_cons_self _ _)]
        rfl
    · cases hl : w.data.getLast? with
      | none => rfl
      | some c =>
        show (!isPyWs c) = true
        rw [hnws c (getLast?_mem_self hl)]
        rfl
  | w :: w2 :: rest =>
    intro hL
    obtain ⟨hne, hnws⟩ := hL w (List.mem_cons_self _ _)
    have hrestL : ∀ x ∈ w2 :: rest, x.data ≠ [] ∧ ∀ c ∈ x.data, isPyWs c = false :=
      fun x hx => hL x (List.mem_cons_of_mem _ hx)
    have hJ := wsNormalized_joinSpace (w2 :: rest) hrestL
    have hJne : (joinSpace (w2 :: rest)).data ≠ [] :=
      joinSpace_ne_nil _ (by simp) fun x hx => (hrestL x hx).1
    unfold wsNormalized at hJ ⊢
    simp only [Bool.and_eq_true] at hJ ⊢
    obtain ⟨⟨hJhead, hJlast⟩, hJrun⟩ := hJ
    rw [show (joinSpace (w :: w2 :: rest)).data
        = (w.data ++ [' ']) ++ (joinSpace (w2 :: rest)).data from rfl,
      List.append_assoc, List.singleton_append]
    refine ⟨⟨?_, ?_⟩, ?_⟩
    · cases hd : w.data with
      | nil => exact absurd hd hne
      | cons a t =>
        show (!isPyWs a) = true
        rw [hnws a (hd ▸ List.mem_cons_self _ _)]
        rfl
    · rw [List.getLast?_append_of_ne_nil _ (List.cons_ne_nil ' ' _)]
      rw [show (' ' :: (joinSpace (w2 :: rest)).data)
          = [' '] ++ (joinSpace (w2 :: rest)).data from rfl]
      rw [List.getLast?_append_of_ne_nil _ hJne]
      exact hJlast
    · refine noWsRun_append_left _ _ hnws ?_
      cases hJd : (joinSpace (w2 :: rest)).data with
      | nil => rfl
      | cons b t =>
        rw [noWsRun]
        have hb2 : (!isPyWs b) = true := by
          rw [hJd] at hJhead
          exact hJhead
        have hb : isPyWs b = false := by
          cases hcase : isPyWs b
          · rfl
          · rw [hcase] at hb2
            exact absurd hb2 (by simp)
        rw [hb]
        simp only [Bool.and_false, Bool.not_false, Bool.true_and]
        rw [← hJd]
        exact hJrun

/-- `Char.toLower` never produces an ASCII capital. -/
theorem toLower_not_upper (c : Char) : asciiUpper (Char.toLower c) = false := by
  simp only [Char.toLower]
  by_cases h : c.toNat ≥ 65 ∧ c.toNat ≤ 90
  · rw [if_pos h]
    have hval : (Char.ofNat (c.toNat + 32)).toNat = c.toNat + 32 := by
      rw [Char.ofNat, dif_pos]
      · rfl
      · exact Or.inl (by omega)
    unfold asciiUpper
    rw [hval]
    apply decide_eq_false
    intro hcon
    omega
  · rw [if_neg h]
    unfold asciiUpper
    apply decide_eq_false
    intro hcon
    exact h ⟨hcon.1, hcon.2⟩

/-- Python whitespace characters all have small code points. -/
theorem isPyWs_toNat {c : Char} (h : isPyWs c = true) : c.toNat ≤ 32 := by
  unfold isPyWs at h
  simp only [Bool.or_eq_true, decide_eq_true_eq] at h
  rcases h with ((((h | h) | h) | h) | h) | h <;> subst h <;> decide

/-- Devanagari text does not strip to the empty string. -/
theorem pyStrip_ne_empty_of_devanagari (text : String)
    (hdev : containsDevanagari text = true) : pyStrip text ≠ "" := by
  intro habs
  obtain ⟨c, hcmem, hcdev⟩ := List.any_eq_true.mp hdev
  have hnil : pyStripList text.data = [] := congrArg String.data habs
  have hallws : ∀ x ∈ text.data, isPyWs x = true := by
    unfold pyStripList at hnil
    rw [List.reverse_eq_nil_iff] at hnil
    have h2 := List.dropWhile_eq_nil_iff.mp hnil
    intro x hx
    have hx2 : x ∈ text.data.takeWhile isPyWs ++ text.data.dropWhile isPyWs := by
      rw [List.takeWhile_append_dropWhile]
      exact hx
    rcases List.mem_append.mp hx2 with h3 | h3
    · exact List.mem_takeWhile_imp h3
    · exact h2 x (List.mem_reverse.mpr h3)
  have hge : 0x900 ≤ c.toNat ∧ c.toNat ≤ 0x97F := by
    unfold isDevanagari at hcdev
    simp only [Bool.and_eq_true, decide_eq_true_eq] at hcdev
    exact hcdev
  have hsmall := isPyWs_toNat (hallws c hcmem)
  omega

/-- **C7 counterexample** — The claim says the normalizer's output is
always lower-cased and whitespace-normalized.  Input without Devanagari
passes through `transliterate` unchanged, so `"Hello  World"` comes back
with a capital letter and a doubled space. -/
theorem transliterate_passthrough_counterexample :
    transliterate "Hello  World" = "Hello  World" ∧
    'H' ∈ (transliterate "Hello  World").data ∧
    asciiUpper 'H' = true ∧
    wsNormalized (transliterate "Hello  World").data = false := by
  refine ⟨by decide, by decide, by decide, by decide⟩

/-- **C7 (amended)** — Whenever the input contains Devanagari (so the
transliteration pipeline actually runs), `transliterate`'s output has no
ASCII capital letters and no leading/trailing/doubled whitespace; input
without Devanagari passes through unchanged. -/
theorem transliterate_normalized (text : String)
    (hdev : containsDevanagari text = true) :
    (∀ c ∈ (transliterate text).data, asciiUpper c = false) ∧
    wsNormalized (transliterate text).data = true := by
  have hbranch : transliterate text
      = applyPhoneticCorrections (cleanTransliteration (localTransliterate text)) := by
    unfold transliterate
    rw [if_neg (pyStrip_ne_empty_of_devanagari text hdev), if_neg (by rw [hdev]; simp)]
  set s0 := cleanTransliteration (localTransliterate text) with hs0
  have hs0up : ∀ c ∈ s0.data, asciiUpper c = false := by
    intro c hc
    rw [hs0] at hc
    have hc2 : c ∈ (pyLower (String.mk
        (collapseAux (localTransliterate text).data false))).data :=
      mem_of_mem_pyStripList _ c hc
    rcases List.mem_map.mp hc2 with ⟨c0, _, rfl⟩
    exact toLower_not_upper c0
  constructor
  · intro c hc
    rw [hbranch] at hc
    rcases joinSpace_mem ((splitWs s0).map correctWord) c hc with rfl | ⟨w, hw, hcw⟩
    · decide
    · rcases List.mem_map.mp hw with ⟨x, hx, rfl⟩
      rcases List.mem_map.mp hx with ⟨u, hu, rfl⟩
      have hsub : ∀ c2 ∈ u, c2 ∈ s0.data := by
        intro c2 hc2
        rcases wordsAux_subset s0.data [] u hu c2 hc2 with h1 | h1
        · exact h1
        · exact absurd h1 (List.not_mem_nil c2)
      exact correctWord_noUpper (String.mk u)
        (fun c2 hc2 => hs0up c2 (hsub c2 hc2)) c hcw
  · rw [hbranch]
    apply wsNormalized_joinSpace
    intro w hw
    rcases List.mem_map.mp hw with ⟨x, hx, rfl⟩
    rcases List.mem_map.mp hx with ⟨u, hu, rfl⟩
    have hgood := wordsAux_good s0.data [] (by simp) u hu
    exact correctWord_good (String.mk u) hgood.1 hgood.2

/-- Witness for C7 (amended) at a Devanagari input. -/
theorem transliterate_normalized_witness :
    (∀ c ∈ (transliterate "नमस्ते").data, asciiUpper c = false) ∧
    wsNormalized (transliterate "नमस्ते").data = true :=
  transliterate_normalized "नमस्ते" (by decide)

set_option maxRecDepth 8192 in
/-- **C8** — Idempotence of the normalizer: input without Devanagari
passes through `transliterate` unchanged, and the phonetic-correction pass
is idempotent on every string (in particular every correction-table value
is a fixed point of the pass). -/
theorem normalizer_idempotent :
    (∀ text : String, containsDevanagari text = false → transliterate text = text) ∧
    (∀ text : String,
      applyPhoneticCorrections (applyPhoneticCorrections text)
        = applyPhoneticCorrections text) := by
  constructor
  · intro text hdev
    unfold transliterate
    by_cases h : pyStrip text = ""
    · rw [if_pos h]
    · rw [if_neg h, if_pos (by rw [hdev]; simp)]
  · intro t
    have hsplit_good : ∀ w ∈ splitWs t, w.data ≠ [] ∧ ∀ c ∈ w.data, isPyWs c = false := by
      intro w hw
      rcases List.mem_map.mp hw with ⟨u, hu, rfl⟩
      exact wordsAux_good t.data [] (by simp) u hu
    have hcorr_good : ∀ w ∈ (splitWs t).map correctWord,
        w.data ≠ [] ∧ ∀ c ∈ w.data, isPyWs c = false := by
      intro w hw
      rcases List.mem_map.mp hw with ⟨x, hx, rfl⟩
      obtain ⟨h1, h2⟩ := hsplit_good x hx
      exact correctWord_good x h1 h2
    have hwords := words_joinSpace ((splitWs t).map correctWord) hcorr_good
    have houter : applyPhoneticCorrections (applyPhoneticCorrections t)
        = joinSpace ((splitWs (applyPhoneticCorrections t)).map correctWord) := rfl
    have hsplit2 : splitWs (applyPhoneticCorrections t) = (splitWs t).map correctWord := by
      show (words (applyPhoneticCorrections t).data).map String.mk
        = (splitWs t).map correctWord
      rw [show words (applyPhoneticCorrections t).data
          = ((splitWs t).map correctWord).map String.data from hwords]
      rw [List.map_map]
      have hid : ∀ l : List String, List.map (String.mk ∘ String.data) l = l := by
        intro l
        induction l with
        | nil => rfl
        | cons a tl ih => exact congrArg₂ List.cons rfl ih
      rw [hid]
    rw [houter, hsplit2, List.map_map]
    exact congrArg joinSpace (List.map_congr_left fun x _ => correctWord_idem x)

/-- Witness for C8 at concrete inputs. -/
theorem normalizer_idempotent_witness :
    transliterate "hello world" = "hello world" ∧
    applyPhoneticCorrections (applyPhoneticCorrections "svata histree kholo")
      = applyPhoneticCorrections "svata histree kholo" :=
  ⟨normalizer_idempotent.1 "hello world" (by decide),
   normalizer_idempotent.2 "svata histree kholo"⟩

end VaniBot
